import Mathlib

/-!
Verification development for the MGF (Mascot Generic Format) reader of the
`mzdata` repository (`src/io/mgf.rs`).

The Rust source is shallowly embedded as executable Lean functions:
* the byte stream behind `io::BufReader` is a `Handle` (a character list, a
  cursor, and an optional position from which the underlying generic
  `R : io::Read` starts failing, modelling IO errors of the abstract reader);
* Rust panics (from `unwrap`, `expect`, out-of-bounds indexing and explicit
  `panic!`) are modelled by the `panicked` constructors carrying the state of
  the reader at the moment of the panic;
* `f64`/`f32` values are modelled as exact rationals; Rust's decimal parsing
  is exactly rounded, and every numeric literal appearing in the statements
  below is exactly representable, so the arithmetic agrees with the source;
* byte positions are character positions: all inputs considered are ASCII,
  where Rust's byte offsets coincide with character counts.

Types that the MGF module uses but whose definitions are not part of the
sources at hand (`OffsetIndex`, `SpectrumDescription` and friends) are
modelled from the specification and marked as such.
-/

/-- Parser state of the MGF line-driven state machine (`MGFParserState`). -/
inductive MGFParserState where
  | Start
  | FileHeader
  | ScanHeaders
  | Peaks
  | Between
  | Done
  | Error
deriving DecidableEq, Repr

/-- Decode-time fault kinds (`MGFError`). -/
inductive MGFError where
  | NoError
  | MalformedPeakLine
  | MalformedHeaderLine
  | TooManyColumnsForPeakLine
  | IOError
deriving DecidableEq, Repr

/-- A centroid peak: m/z and intensity, floats modelled as rationals. -/
structure CentroidPeak where
  mz : ℚ
  intensity : ℚ
deriving DecidableEq, Repr

/-- Modelled from the spec: the peak container is an ordered list supporting
append (`PeakSet`); the decoder only ever pushes peaks in file order. -/
abbrev PeakSet := List CentroidPeak

/-- Modelled from the spec: one selected ion with m/z (double), intensity
(single-precision float) and an optional integer charge. -/
structure SelectedIon where
  mz : ℚ
  intensity : ℚ
  charge : Option Int
deriving DecidableEq, Repr

/-- Modelled from the spec: a precursor holds one selected ion. -/
structure Precursor where
  ion : SelectedIon
deriving DecidableEq, Repr

/-- Modelled from the spec: an acquisition event with at least a start time. -/
structure ScanEvent where
  start_time : ℚ
deriving DecidableEq, Repr

/-- Modelled from the spec: signal continuity variants. -/
inductive SignalContinuity where
  | Centroid
  | Profile
  | Unknown
deriving DecidableEq, Repr

/-- Modelled from the spec: scan polarity variants; only `Unknown` is used by
the MGF decoder. -/
inductive ScanPolarity where
  | Unknown
  | Positive
  | Negative
deriving DecidableEq, Repr

/-- Modelled from the spec: the record description with identifier, ms level,
signal continuity, polarity, optional precursor, acquisition events and a
key-value annotation map (keys unique, last write wins). -/
structure SpectrumDescription where
  id : String
  ms_level : Nat
  signal_continuity : SignalContinuity
  polarity : ScanPolarity
  precursor : Option Precursor
  acquisition : List ScanEvent
  annotations : List (String × String)
deriving DecidableEq, Repr

/-- One decoded record: a description plus a peak list (`CentroidSpectrum`). -/
structure CentroidSpectrum where
  description : SpectrumDescription
  peaks : PeakSet
deriving DecidableEq, Repr

/-- Modelled from the spec: the offset index is an insertion-ordered map from
identifier to byte offset with an `init` flag (`OffsetIndex`). -/
structure OffsetIndex where
  name : String
  entries : List (String × Nat)
  init : Bool
deriving DecidableEq, Repr

/-- Insertion into the entry list: overwrite in place if the key exists,
append otherwise (spec section 4.1). -/
def insertEntry : List (String × Nat) → String → Nat → List (String × Nat)
  | [], id, off => [(id, off)]
  | e :: es, id, off =>
    if e.1 = id then (id, off) :: es else e :: insertEntry es id off

/-- Modelled from the spec: a fresh, uninitialized offset index. -/
def OffsetIndex.new (n : String) : OffsetIndex :=
  { name := n, entries := [], init := false }

/-- Modelled from the spec: `insert(id, offset)`. -/
def OffsetIndex.insert (ix : OffsetIndex) (id : String) (off : Nat) : OffsetIndex :=
  { ix with entries := insertEntry ix.entries id off }

/-- Modelled from the spec: `get(id)`, exact-string lookup. -/
def OffsetIndex.get (ix : OffsetIndex) (id : String) : Option Nat :=
  (ix.entries.find? (fun e => e.1 == id)).map (fun e => e.2)

/-- Modelled from the spec: `get_index(i)`, 0-based lookup in insertion
order. -/
def OffsetIndex.get_index (ix : OffsetIndex) (i : Nat) : Option (String × Nat) :=
  ix.entries.get? i

/-- Modelled from the spec: number of indexed identifiers. -/
def OffsetIndex.len (ix : OffsetIndex) : Nat :=
  ix.entries.length

/-- The buffered stream behind the reader: its full contents, the position
from which reads of the underlying generic `R : io::Read` fail (if any), and
the current cursor. -/
structure Handle where
  data : List Char
  errFrom : Option Nat
  pos : Nat
deriving DecidableEq, Repr

/-- A handle over plain in-memory data whose reads never fail. -/
def mkHandle (data : List Char) : Handle :=
  { data := data, errFrom := none, pos := 0 }

/-- Whether a read issued at the current cursor fails with an IO error. -/
def handleFails (h : Handle) : Bool :=
  match h.errFrom with
  | some e => decide (e ≤ h.pos)
  | none => false

/-- Split off one line, including its terminating newline byte, from a
character stream; models `BufRead::read_line` / `read_until(b'\n')`. -/
def takeLine : List Char → List Char × List Char
  | [] => ([], [])
  | c :: cs =>
    if c = '\n' then ([c], cs)
    else
      let r := takeLine cs
      (c :: r.1, r.2)

/-- Seek the handle to an absolute byte offset (`SeekFrom::Start`); in this
model seeks always succeed. -/
def hseek (h : Handle) (n : Nat) : Handle :=
  { h with pos := n }

/-- The whitespace class of Rust's `char::is_whitespace` and of the regex
class `\s`, restricted to the ASCII range used by the inputs modelled here. -/
def rustIsWS (c : Char) : Bool :=
  c == ' ' || c == '\t' || c == '\n' || c == '\r' || c == '\x0b' || c == '\x0c'

/-- Characters of `str::trim`: whitespace stripped from both ends. -/
def trimChars (l : List Char) : List Char :=
  (((l.dropWhile rustIsWS).reverse).dropWhile rustIsWS).reverse

/-- Model of Rust's `str::trim`. -/
def rustTrim (s : String) : String :=
  String.mk (trimChars s.data)

/-- Model of `str::contains(char)`. -/
def strContains (s : String) (c : Char) : Bool :=
  s.data.contains c

/-- Model of `starts_with` on the raw bytes of a line. -/
def strStartsWith (s p : String) : Bool :=
  p.data.isPrefixOf s.data

/-- Model of byte slicing `&buffer[n..]` (ASCII: bytes are characters). -/
def strDrop (s : String) (n : Nat) : String :=
  String.mk (s.data.drop n)

/-- Model of `str::to_lowercase` on the ASCII keys that occur here. -/
def strToLower (s : String) : String :=
  String.mk (s.data.map Char.toLower)

/-- First component of `splitn(2, '=')`: the part before the first `=`. -/
def strTakeUntilEq (s : String) : String :=
  String.mk (s.data.takeWhile (fun c => c != '='))

/-- Second component of `splitn(2, '=')`: the part after the first `=`. -/
def strAfterEq (s : String) : String :=
  String.mk (s.data.drop ((s.data.takeWhile (fun c => c != '=')).length + 1))

/-- Rust's `char::is_numeric` restricted to the ASCII range: on ASCII input it
holds exactly for the decimal digits. -/
def charIsNumeric (c : Char) : Bool :=
  c.isDigit

/-- Digits-to-number accumulator used by the decimal parsers. -/
def natOfDigits (cs : List Char) : Nat :=
  cs.foldl (fun a c => a * 10 + (c.toNat - 48)) 0

/-- Parse a nonempty all-digit string. -/
def parseDigits (cs : List Char) : Option Nat :=
  if cs.isEmpty then none
  else if cs.all Char.isDigit then some (natOfDigits cs) else none

/-- Unsigned decimal number with optional fractional part, as used by Rust's
float parsing on the plain decimal literals modelled here. -/
def parseDecCore (cs : List Char) : Option ℚ :=
  let ip := cs.takeWhile (fun c => c != '.')
  let rest := cs.drop ip.length
  if ¬ ip.all Char.isDigit then none
  else
    match rest with
    | [] => if ip.isEmpty then none else some ((natOfDigits ip : ℚ))
    | _ :: fp =>
      if ¬ fp.all Char.isDigit then none
      else if ip.isEmpty ∧ fp.isEmpty then none
      else some ((natOfDigits ip : ℚ) + (natOfDigits fp : ℚ) / ((10 : ℚ) ^ fp.length))

/-- Model of `str::parse::<f64>` on plain decimal literals; floats are exact
rationals here, and Rust's parse is exactly rounded on the values used. -/
def parseF64 (s : String) : Option ℚ :=
  match s.data with
  | [] => none
  | '+' :: cs => parseDecCore cs
  | '-' :: cs => (parseDecCore cs).map Neg.neg
  | cs => parseDecCore cs

/-- Model of `str::parse::<f32>`; the literals used are exactly representable
in single precision, so the same exact-rational parse applies. -/
def parseF32 (s : String) : Option ℚ :=
  parseF64 s

/-- Model of `str::parse::<i32>` (with the i32 range check). -/
def parseI32 (s : String) : Option Int :=
  match s.data with
  | '+' :: cs =>
    (parseDigits cs).bind (fun n => if n ≤ 2147483647 then some ((n : Int)) else none)
  | '-' :: cs =>
    (parseDigits cs).bind (fun n => if n ≤ 2147483648 then some (-(n : Int)) else none)
  | cs =>
    (parseDigits cs).bind (fun n => if n ≤ 2147483647 then some ((n : Int)) else none)

/-- The ASCII whitespace class of `split_ascii_whitespace`. -/
def isAsciiWS (c : Char) : Bool :=
  c == ' ' || c == '\t' || c == '\n' || c == '\x0c' || c == '\r'

/-- Model of `str::split_ascii_whitespace`; `none` accumulator means the
scanner is between words. -/
def splitAsciiWSCore : List Char → Option (List Char) → List String
  | [], none => []
  | [], some acc => [String.mk acc.reverse]
  | c :: cs, none =>
    if isAsciiWS c then splitAsciiWSCore cs none
    else splitAsciiWSCore cs (some [c])
  | c :: cs, some acc =>
    if isAsciiWS c then String.mk acc.reverse :: splitAsciiWSCore cs none
    else splitAsciiWSCore cs (some (c :: acc))

def splitAsciiWS (s : String) : List String :=
  splitAsciiWSCore s.data none

/-- Splitting with the precompiled peak separator regex `\t|\s+`: at each
position the alternation first tries a single tab, then a maximal greedy run
of whitespace; a `none` accumulator means the scanner is inside such a run. -/
def peakSplitCore : List Char → Option (List Char) → List String
  | [], none => [String.mk []]
  | [], some acc => [String.mk acc.reverse]
  | c :: cs, none =>
    if rustIsWS c then peakSplitCore cs none
    else peakSplitCore cs (some [c])
  | c :: cs, some acc =>
    if c = '\t' then String.mk acc.reverse :: peakSplitCore cs (some [])
    else if rustIsWS c then String.mk acc.reverse :: peakSplitCore cs none
    else peakSplitCore cs (some (c :: acc))

def peakSeparatorSplit (s : String) : List String :=
  peakSplitCore s.data (some [])

/-- Last-write-wins insertion into the annotation map (modelled from the
spec: flat key-value mapping, keys unique). -/
def insertAnn : List (String × String) → String → String → List (String × String)
  | [], k, v => [(k, v)]
  | e :: es, k, v =>
    if e.1 = k then (k, v) :: es else e :: insertAnn es k v

/-- Modelled from the spec: `acquisition.first_scan_mut()` returns the first
acquisition event, creating one if none exists; the decoder then sets its
start time. -/
def setFirstScanStart (d : SpectrumDescription) (t : ℚ) : SpectrumDescription :=
  match d.acquisition with
  | [] => { d with acquisition := [{ start_time := t }] }
  | e :: es => { d with acquisition := { e with start_time := t } :: es }

/-- The MGF reader: buffered handle, parser state, offset field (set at
construction and never updated in the source), last error, offset index. -/
structure MGFReader where
  handle : Handle
  state : MGFParserState
  offset : Nat
  error : MGFError
  index : OffsetIndex
deriving DecidableEq, Repr

/-- `MGFReader::new`: fresh reader in the `Start` state with an empty
unindexed offset index. -/
def MGFReader.new (h : Handle) : MGFReader :=
  { handle := h
    state := MGFParserState.Start
    offset := 0
    error := MGFError.NoError
    index := OffsetIndex.new "spectrum" }

/-- Outcome of a call that can panic: either a value together with the
mutated reader state, or a panic carrying the reader state at the panic. -/
inductive PRes (α : Type) where
  | ok (r : MGFReader) (a : α)
  | panicked (r : MGFReader) (msg : String)
deriving DecidableEq, Repr

/-- Outcome of `parse_peak_from_line`, which mutates only `state`/`error`. -/
inductive PPOut where
  | panicked (st : MGFParserState) (er : MGFError) (msg : String)
  | ok (st : MGFParserState) (er : MGFError) (pk : Option CentroidPeak)
deriving DecidableEq, Repr

/-- Outcome of `handle_scan_header`: the returned bool plus the mutated
state, error, description and peak list. -/
inductive HOut where
  | panicked (st : MGFParserState) (er : MGFError) (msg : String)
  | ok (st : MGFParserState) (er : MGFError) (res : Bool)
      (d : SpectrumDescription) (p : PeakSet)
deriving DecidableEq, Repr

/-- Outcome of `handle_peak`. -/
inductive HPOut where
  | panicked (st : MGFParserState) (er : MGFError) (msg : String)
  | ok (st : MGFParserState) (er : MGFError) (res : Bool) (p : PeakSet)
deriving DecidableEq, Repr

/-- `MGFReader::parse_peak_from_line`: on a line whose first character is
numeric, split on the peak separator; fewer than two fields sets the
`TooManyColumnsForPeakLine` fault and the `Error` state, after which the
source still evaluates `parts[0].parse().unwrap()` and indexes `parts[1]` —
both modelled as panics carrying the already-mutated state. -/
def parse_peak_from_line (st : MGFParserState) (er : MGFError) (line : String) : PPOut :=
  match line.data with
  | [] => PPOut.panicked st er "called Option::unwrap on a None value"
  | first :: _ =>
    if charIsNumeric first then
      let parts := peakSeparatorSplit line
      let nparts := parts.length
      let st' := if nparts < 2 then MGFParserState.Error else st
      let er' := if nparts < 2 then MGFError.TooManyColumnsForPeakLine else er
      match parseF64 ((parts.get? 0).getD "") with
      | none => PPOut.panicked st' er' "invalid float literal"
      | some mz =>
        match parts.get? 1 with
        | none => PPOut.panicked st' er' "index out of bounds"
        | some p1 =>
          match parseF32 p1 with
          | none => PPOut.panicked st' er' "invalid float literal"
          | some inten => PPOut.ok st' er' (some { mz := mz, intensity := inten })
    else PPOut.ok st er none

/-- `MGFReader::handle_scan_header`: peak-line test first, then `END IONS`,
then the `=`-header split, else the `MalformedHeaderLine` fault. -/
def handle_scan_header (st : MGFParserState) (er : MGFError) (line : String)
    (d : SpectrumDescription) (p : PeakSet) : HOut :=
  match parse_peak_from_line st er line with
  | PPOut.panicked st' er' m => HOut.panicked st' er' m
  | PPOut.ok st' er' (some pk) => HOut.ok MGFParserState.Peaks er' true d (p ++ [pk])
  | PPOut.ok st' er' none =>
    if line = "END IONS" then HOut.ok MGFParserState.Between er' true d p
    else if strContains line '=' then
      let key := strTakeUntilEq line
      let value := strAfterEq line
      if key = "TITLE" then HOut.ok st' er' true { d with id := value } p
      else if key = "RTINSECONDS" then
        match parseF64 value with
        | none => HOut.panicked st' er' "invalid float literal"
        | some t => HOut.ok st' er' true (setFirstScanStart d t) p
      else if key = "PEPMASS" then
        let parts := splitAsciiWS value
        match parts.get? 0 with
        | none => HOut.panicked st' er' "index out of bounds"
        | some p0 =>
          match parseF64 p0 with
          | none => HOut.panicked st' er' "invalid float literal"
          | some mz =>
            match parts.get? 1 with
            | none => HOut.panicked st' er' "index out of bounds"
            | some p1 =>
              match parseF32 p1 with
              | none => HOut.panicked st' er' "invalid float literal"
              | some inten =>
                if 2 < parts.length then
                  match parseI32 ((parts.get? 2).getD "") with
                  | none => HOut.panicked st' er' "invalid digit found in string"
                  | some c =>
                    HOut.ok st' er' true
                      { d with precursor := some { ion := { mz := mz, intensity := inten, charge := some c } } } p
                else
                  HOut.ok st' er' true
                    { d with precursor := some { ion := { mz := mz, intensity := inten, charge := none } } } p
      else
        HOut.ok st' er' true
          { d with annotations := insertAnn d.annotations (strToLower key) value } p
    else HOut.ok MGFParserState.Error MGFError.MalformedHeaderLine false d p

/-- `MGFReader::handle_peak`: peak-line test, `END IONS`, else the
`MalformedPeakLine` fault. -/
def handle_peak (st : MGFParserState) (er : MGFError) (line : String)
    (p : PeakSet) : HPOut :=
  match parse_peak_from_line st er line with
  | PPOut.panicked st' er' m => HPOut.panicked st' er' m
  | PPOut.ok st' er' (some pk) => HPOut.ok st' er' true (p ++ [pk])
  | PPOut.ok st' er' none =>
    if line = "END IONS" then HPOut.ok MGFParserState.Between er' false p
    else HPOut.ok MGFParserState.Error MGFError.MalformedPeakLine false p

/-- `MGFReader::handle_start`: ignore everything except `BEGIN IONS`. -/
def handle_start (st : MGFParserState) (line : String) : MGFParserState × Bool :=
  if strContains line '=' then (st, true)
  else if line = "BEGIN IONS" then (MGFParserState.ScanHeaders, true)
  else (st, true)

/-- `MGFReader::handle_between`: ignore everything except `BEGIN IONS`. -/
def handle_between (st : MGFParserState) (line : String) : MGFParserState × Bool :=
  if line = "BEGIN IONS" then (MGFParserState.ScanHeaders, true)
  else (st, true)

/-- One non-blank line of the `read_into` loop: dispatch on the current
state (unhandled states leave everything unchanged with `work` still true),
then the loop's `Error`-state check, which panics. -/
def stepLine (st : MGFParserState) (er : MGFError) (line : String)
    (d : SpectrumDescription) (p : PeakSet) : HOut :=
  let res : HOut :=
    if st = MGFParserState.Start then
      let s := handle_start st line
      HOut.ok s.1 er s.2 d p
    else if st = MGFParserState.Between then
      let s := handle_between st line
      HOut.ok s.1 er s.2 d p
    else if st = MGFParserState.ScanHeaders then handle_scan_header st er line d p
    else if st = MGFParserState.Peaks then
      match handle_peak st er line p with
      | HPOut.panicked st' er' m => HOut.panicked st' er' m
      | HPOut.ok st' er' w p' => HOut.ok st' er' w d p'
    else HOut.ok st er true d p
  match res with
  | HOut.ok st' er' w d' p' =>
    if st' = MGFParserState.Error then
      HOut.panicked st' er' "MGF Parsing Error"
    else HOut.ok st' er' w d' p'
  | pan => pan

/-- The loop of `MGFReader::read_into`: read a line (an IO failure of the
underlying reader records `IOError` and returns it); zero bytes mean end of
stream (`Done`); blank lines are skipped; otherwise dispatch one line and
either continue, stop at a completed record, or panic. -/
def read_into_loop (r : MGFReader) (d : SpectrumDescription) (p : PeakSet)
    (off : Nat) : PRes ((Except MGFError Nat) × SpectrumDescription × PeakSet) :=
  if handleFails r.handle then
    PRes.ok { r with error := MGFError.IOError, state := MGFParserState.Error }
      (Except.error MGFError.IOError, d, p)
  else
    let buffer := String.mk (takeLine (r.handle.data.drop r.handle.pos)).1
    let b := buffer.length
    let h' : Handle := { r.handle with pos := r.handle.pos + b }
    if hb : b = 0 then
      PRes.ok { r with state := MGFParserState.Done, handle := h' } (Except.ok off, d, p)
    else
      let line := rustTrim buffer
      if line.length = 0 then read_into_loop { r with handle := h' } d p (off + b)
      else
        match stepLine r.state r.error line d p with
        | HOut.panicked st' er' m =>
          PRes.panicked { r with handle := h', state := st', error := er' } m
        | HOut.ok st' er' work d' p' =>
          if work then
            read_into_loop { r with handle := h', state := st', error := er' } d' p' (off + b)
          else
            PRes.ok { r with handle := h', state := st', error := er' }
              (Except.ok (off + b), d', p')
  termination_by r.handle.data.length - r.handle.pos
  decreasing_by
    all_goals
      have hle : (takeLine (r.handle.data.drop r.handle.pos)).1.length ≤
          r.handle.data.length - r.handle.pos := by
        have h1 : ∀ l : List Char, (takeLine l).1.length ≤ l.length := by
          intro l
          induction l with
          | nil => simp [takeLine]
          | cons c cs ih =>
            simp only [takeLine]
            by_cases hc : c = '\n' <;> simp [hc] <;> omega
        have h2 := h1 (r.handle.data.drop r.handle.pos)
        simpa using h2
      have hb2 : (takeLine (r.handle.data.drop r.handle.pos)).1.length ≠ 0 := hb
      show r.handle.data.length -
          (r.handle.pos + (takeLine (r.handle.data.drop r.handle.pos)).1.length) <
          r.handle.data.length - r.handle.pos
      omega

/-- `MGFReader::read_into`. -/
def read_into (r : MGFReader) (spectrum : CentroidSpectrum) :
    PRes ((Except MGFError Nat) × CentroidSpectrum) :=
  match read_into_loop r spectrum.description spectrum.peaks 0 with
  | PRes.panicked rp m => PRes.panicked rp m
  | PRes.ok r' (res, d, p) => PRes.ok r' (res, { description := d, peaks := p })

/-- Description defaults used by `SpectrumBuilder::default` / `new_scan`
(spec section 3: identifier empty, ms level 2, Centroid, Unknown polarity). -/
def defaultDescription : SpectrumDescription :=
  { id := ""
    ms_level := 2
    signal_continuity := SignalContinuity.Centroid
    polarity := ScanPolarity.Unknown
    precursor := none
    acquisition := []
    annotations := [] }

/-- `MGFReader::new_scan`: an empty scan with the MGF defaults. -/
def new_scan : CentroidSpectrum :=
  { description := defaultDescription, peaks := [] }

/-- `MGFReader::read_next`: decode into a fresh scan; a positive byte count
yields the scan, zero bytes yield `none`, and a decode error is printed and
discarded, also yielding `none`. -/
def read_next (r : MGFReader) : PRes (Option CentroidSpectrum) :=
  match read_into r new_scan with
  | PRes.panicked rp m => PRes.panicked rp m
  | PRes.ok r' (Except.ok off, scan) =>
    PRes.ok r' (if 0 < off then some scan else none)
  | PRes.ok r' (Except.error _, _) => PRes.ok r' none

/-- The loop of `MGFReader::build_index`: raw forward scan; `BEGIN IONS`
prefixed lines record the start offset, a `TITLE=`-prefixed line after one
inserts the remaining raw bytes of the line as the identifier; a read error
panics. -/
def build_index_loop (r : MGFReader) (off last : Nat) (found : Bool) : PRes Nat :=
  if handleFails r.handle then PRes.panicked r "Error while reading file"
  else
    let buffer := String.mk (takeLine (r.handle.data.drop r.handle.pos)).1
    let b := buffer.length
    let h' : Handle := { r.handle with pos := r.handle.pos + b }
    if hb : b = 0 then PRes.ok { r with handle := h' } off
    else if strStartsWith buffer "BEGIN IONS" then
      build_index_loop { r with handle := h' } (off + b) off true
    else if found && strStartsWith buffer "TITLE=" then
      build_index_loop
        { r with handle := h',
                 index := r.index.insert (strDrop buffer 6) last } (off + b) 0 false
    else build_index_loop { r with handle := h' } (off + b) last found
  termination_by r.handle.data.length - r.handle.pos
  decreasing_by
    all_goals
      have hle : (takeLine (r.handle.data.drop r.handle.pos)).1.length ≤
          r.handle.data.length - r.handle.pos := by
        have h1 : ∀ l : List Char, (takeLine l).1.length ≤ l.length := by
          intro l
          induction l with
          | nil => simp [takeLine]
          | cons c cs ih =>
            simp only [takeLine]
            by_cases hc : c = '\n' <;> simp [hc] <;> omega
        have h2 := h1 (r.handle.data.drop r.handle.pos)
        simpa using h2
      have hb2 : (takeLine (r.handle.data.drop r.handle.pos)).1.length ≠ 0 := hb
      show r.handle.data.length -
          (r.handle.pos + (takeLine (r.handle.data.drop r.handle.pos)).1.length) <
          r.handle.data.length - r.handle.pos
      omega

/-- `MGFReader::build_index`: save the position, scan from byte 0, restore
the position, mark the index initialized, return the total byte count. -/
def build_index (r : MGFReader) : PRes Nat :=
  let start := r.handle.pos
  let r0 := { r with handle := hseek r.handle 0 }
  match build_index_loop r0 0 0 false with
  | PRes.panicked rp m => PRes.panicked rp m
  | PRes.ok r1 off =>
    PRes.ok
      { r1 with handle := hseek r1.handle start,
                index := { r1.index with init := true } } off

/-- `MGFReader::new_indexed`: construct a reader and build its index. -/
def new_indexed (h : Handle) : PRes Unit :=
  match build_index (MGFReader.new h) with
  | PRes.panicked rp m => PRes.panicked rp m
  | PRes.ok r _ => PRes.ok r ()

/-- `ScanSource::get_spectrum_by_id`: look up the offset (`expect` panics
when the id is absent), save the position, seek, decode one spectrum with
`read_next`, restore the position. -/
def get_spectrum_by_id (r : MGFReader) (id : String) : PRes (Option CentroidSpectrum) :=
  match r.index.get id with
  | none => PRes.panicked r "Failed to retrieve offset"
  | some off =>
    let start := r.handle.pos
    let r1 := { r with handle := hseek r.handle off }
    match read_next r1 with
    | PRes.panicked rp m => PRes.panicked rp m
    | PRes.ok r2 result => PRes.ok { r2 with handle := hseek r2.handle start } result

/-- `ScanSource::get_spectrum_by_index`: like by-id but resolved through the
insertion order; a missing position returns `none` via `?`. -/
def get_spectrum_by_index (r : MGFReader) (i : Nat) : PRes (Option CentroidSpectrum) :=
  match r.index.get_index i with
  | none => PRes.ok r none
  | some e =>
    let start := r.handle.pos
    let r1 := { r with handle := hseek r.handle e.2 }
    match read_next r1 with
    | PRes.panicked rp m => PRes.panicked rp m
    | PRes.ok r2 result => PRes.ok { r2 with handle := hseek r2.handle start } result

/-- Repeated sequential iteration: call `read_next` up to `n` times,
stopping at the first `none` (the `Iterator` consumption pattern). -/
def readSeq : MGFReader → Nat → PRes (List CentroidSpectrum)
  | r, 0 => PRes.ok r []
  | r, Nat.succ n =>
    match read_next r with
    | PRes.panicked rp m => PRes.panicked rp m
    | PRes.ok r' none => PRes.ok r' []
    | PRes.ok r' (some s) =>
      match readSeq r' n with
      | PRes.panicked rp m => PRes.panicked rp m
      | PRes.ok r'' l => PRes.ok r'' (s :: l)

/-- A random-access query: by insertion-order position or by identifier. -/
inductive MgfQuery where
  | byIndex (i : Nat)
  | byId (id : String)
deriving DecidableEq, Repr

/-- Run one random-access query. -/
def runQuery (r : MGFReader) : MgfQuery → PRes (Option CentroidSpectrum)
  | MgfQuery.byIndex i => get_spectrum_by_index r i
  | MgfQuery.byId id => get_spectrum_by_id r id

/-- Run a sequence of random-access queries, collecting the results. -/
def runQueries : MGFReader → List MgfQuery → PRes (List (Option CentroidSpectrum))
  | r, [] => PRes.ok r []
  | r, q :: qs =>
    match runQuery r q with
    | PRes.panicked rp m => PRes.panicked rp m
    | PRes.ok r' a =>
      match runQueries r' qs with
      | PRes.panicked rp m => PRes.panicked rp m
      | PRes.ok r'' l => PRes.ok r'' (a :: l)

/-- Characters of one physical line: content plus the newline terminator. -/
def lineChars (s : String) : List Char :=
  s.data ++ ['\n']

/-- Source description of one MGF record: a TITLE value, further header
lines, and peak lines; rendering produces the on-disk block. -/
structure MGFRecordSrc where
  title : String
  headers : List String
  peakLines : List String
deriving DecidableEq, Repr

/-- Render one record block exactly as it appears in the file. -/
def renderRecord (rec : MGFRecordSrc) : List Char :=
  lineChars "BEGIN IONS" ++ lineChars ("TITLE=" ++ rec.title) ++
    (rec.headers.map lineChars).join ++ (rec.peakLines.map lineChars).join ++
    lineChars "END IONS"

/-- Render a whole well-formed MGF file. -/
def renderFile (recs : List MGFRecordSrc) : List Char :=
  (recs.map renderRecord).join

/-- A physical line that survives trimming unchanged: nonempty, no interior
newline, no leading or trailing whitespace. -/
def lineClean (s : String) : Bool :=
  (rustTrim s == s) && (s != "") && !(s.data.contains '\n')

/-- The action taken for a `KEY=VALUE` header line parses without panicking. -/
def headerActionOk (h : String) : Bool :=
  let key := strTakeUntilEq h
  let value := strAfterEq h
  if key == "RTINSECONDS" then (parseF64 value).isSome
  else if key == "PEPMASS" then
    let parts := splitAsciiWS value
    decide (2 ≤ parts.length) && (parseF64 ((parts.get? 0).getD "")).isSome &&
      (parseF32 ((parts.get? 1).getD "")).isSome &&
      (decide (parts.length ≤ 2) || (parseI32 ((parts.get? 2).getD "")).isSome)
  else true

/-- A well-formed extra header line of a record. -/
def headerOk (h : String) : Bool :=
  lineClean h &&
    (match h.data with
     | [] => false
     | c :: _ => !(charIsNumeric c)) &&
    (h != "END IONS") && h.data.contains '=' &&
    !(strStartsWith h "TITLE=") && !(strStartsWith h "BEGIN IONS") &&
    headerActionOk h

/-- A well-formed peak line: digit-first, at least two fields, both numeric
fields parse. -/
def peakLineOk (s : String) : Bool :=
  lineClean s &&
    (match s.data with
     | [] => false
     | c :: _ => charIsNumeric c) &&
    (let parts := peakSeparatorSplit s
     decide (2 ≤ parts.length) && (parseF64 ((parts.get? 0).getD "")).isSome &&
       (parseF32 ((parts.get? 1).getD "")).isSome)

/-- A well-formed TITLE value: no newline, and the rendered TITLE line
survives trimming unchanged. -/
def titleOk (t : String) : Bool :=
  !(t.data.contains '\n') && (rustTrim ("TITLE=" ++ t) == "TITLE=" ++ t)

/-- A well-formed record: clean title and header lines, and at least one
peak line. -/
def recordOk (rec : MGFRecordSrc) : Bool :=
  titleOk rec.title && rec.headers.all headerOk && rec.peakLines.all peakLineOk &&
    !rec.peakLines.isEmpty

/-- A well-formed input: every record well-formed and titles distinct. -/
def wfInput (recs : List MGFRecordSrc) : Bool :=
  recs.all recordOk && decide ((recs.map (fun r => r.title)).Nodup)

/-- The effect of one `KEY=VALUE` header line on the description, mirroring
the `=`-branch of `handle_scan_header`. -/
def applyHeader (d : SpectrumDescription) (h : String) : SpectrumDescription :=
  let key := strTakeUntilEq h
  let value := strAfterEq h
  if key = "TITLE" then { d with id := value }
  else if key = "RTINSECONDS" then setFirstScanStart d ((parseF64 value).getD 0)
  else if key = "PEPMASS" then
    let parts := splitAsciiWS value
    let mz := (parseF64 ((parts.get? 0).getD "")).getD 0
    let inten := (parseF32 ((parts.get? 1).getD "")).getD 0
    let charge : Option Int :=
      if 2 < parts.length then some ((parseI32 ((parts.get? 2).getD "")).getD 0) else none
    { d with precursor := some { ion := { mz := mz, intensity := inten, charge := charge } } }
  else { d with annotations := insertAnn d.annotations (strToLower key) value }

/-- The peak decoded from a well-formed peak line. -/
def peakOf (s : String) : CentroidPeak :=
  let parts := peakSeparatorSplit s
  { mz := (parseF64 ((parts.get? 0).getD "")).getD 0
    intensity := (parseF32 ((parts.get? 1).getD "")).getD 0 }

/-- The spectrum decoded from one well-formed record. -/
def recSpec (rec : MGFRecordSrc) : CentroidSpectrum :=
  { description := rec.headers.foldl applyHeader { defaultDescription with id := rec.title }
    peaks := rec.peakLines.map peakOf }

/-- Index entries produced for consecutive records starting at a byte base. -/
def entriesFor (base : Nat) : List MGFRecordSrc → List (String × Nat)
  | [] => []
  | rec :: rest => (rec.title ++ "\n", base) :: entriesFor (base + (renderRecord rec).length) rest

/-- The offset index built by scanning consecutive records from a byte base. -/
def foldIdx (idx : OffsetIndex) (base : Nat) : List MGFRecordSrc → OffsetIndex
  | [] => idx
  | rec :: rest =>
    foldIdx (idx.insert (rec.title ++ "\n") base) (base + (renderRecord rec).length) rest

/-- The result a random-access query is expected to return. -/
def queryExpected (recs : List MGFRecordSrc) : MgfQuery → Option CentroidSpectrum
  | MgfQuery.byIndex i => (recs.map recSpec).get? i
  | MgfQuery.byId id => (recs.find? (fun rec => rec.title ++ "\n" == id)).map recSpec

/-- Validity of a random-access query against a record list. -/
def queryValid (recs : List MGFRecordSrc) : MgfQuery → Bool
  | MgfQuery.byIndex i => decide (i < recs.length)
  | MgfQuery.byId id => recs.any (fun rec => rec.title ++ "\n" == id)

/-- Statement of the amended index-then-query equivalence: building the
index succeeds, sequential iteration yields the decoded records, every valid
query answers with the record's sequentially decoded content, in any order;
by-index answers are literally entries of the sequential result list and
by-id answers are the sequentially decoded record with the queried key. -/
def c1Statement (recs : List MGFRecordSrc) (qs : List MgfQuery) : Prop :=
  ∃ r0 r1 r2,
    new_indexed (mkHandle (renderFile recs)) = PRes.ok r0 () ∧
    readSeq (MGFReader.new (mkHandle (renderFile recs))) (recs.length + 1) =
      PRes.ok r2 (recs.map recSpec) ∧
    runQueries r0 qs = PRes.ok r1 (qs.map (queryExpected recs)) ∧
    (∀ i, queryExpected recs (MgfQuery.byIndex i) = (recs.map recSpec).get? i) ∧
    (∀ id rec, recs.find? (fun x => x.title ++ "\n" == id) = some rec →
        queryExpected recs (MgfQuery.byId id) = some (recSpec rec))

/-- Statement of the amended position-preservation property: random-access
calls that return always restore the stream position, and for well-formed
inputs any sequence of valid queries leaves subsequent sequential reads
unchanged. -/
def c2Conclusion (recs : List MGFRecordSrc) (qs : List MgfQuery) : Prop :=
  (∀ (r r' : MGFReader) (id : String) (res : Option CentroidSpectrum),
      get_spectrum_by_id r id = PRes.ok r' res → r'.handle.pos = r.handle.pos) ∧
  (∀ (r r' : MGFReader) (i : Nat) (res : Option CentroidSpectrum),
      get_spectrum_by_index r i = PRes.ok r' res → r'.handle.pos = r.handle.pos) ∧
  (∃ r0 r1 res out ra rb,
      new_indexed (mkHandle (renderFile recs)) = PRes.ok r0 () ∧
      runQueries r0 qs = PRes.ok r1 res ∧
      r1.handle.pos = r0.handle.pos ∧
      readSeq r1 (recs.length + 1) = PRes.ok ra out ∧
      readSeq r0 (recs.length + 1) = PRes.ok rb out)

/-- Statement of the index-key/decoded-id mismatch: the key stored for
record `i` is its TITLE value with the trailing newline, while sequential
decoding yields the trimmed value, so the two differ. -/
def c9Statement (recs : List MGFRecordSrc) (i : Nat) : Prop :=
  ∃ r0 rec key off r2,
    recs.get? i = some rec ∧
    new_indexed (mkHandle (renderFile recs)) = PRes.ok r0 () ∧
    r0.index.get_index i = some (key, off) ∧
    key = rec.title ++ "\n" ∧
    readSeq (MGFReader.new (mkHandle (renderFile recs))) (recs.length + 1) =
      PRes.ok r2 (recs.map recSpec) ∧
    (recSpec rec).description.id = rec.title ∧
    key ≠ (recSpec rec).description.id

/-- Concrete one-record file with one peak, used by witnesses. -/
def fileA : List Char :=
  "BEGIN IONS\nTITLE=A\n100 200.5\nEND IONS\n".data

/-- Concrete one-record file whose record has zero peaks. -/
def fileZeroPeak : List Char :=
  "BEGIN IONS\nTITLE=A\nEND IONS\n".data

/-- Concrete file: an empty block followed by a one-peak block. -/
def fileMerge : List Char :=
  "BEGIN IONS\nEND IONS\nBEGIN IONS\n100 200\nEND IONS\n".data

/-- Concrete file consisting of a single empty block. -/
def fileEmptyBlock : List Char :=
  "BEGIN IONS\nEND IONS\n".data

/-- Concrete well-formed two-record input for witnesses. -/
def recs0 : List MGFRecordSrc :=
  [{ title := "A", headers := ["SCANS=1"], peakLines := ["100 200.5"] },
   { title := "B", headers := ["PEPMASS=500.5 1000.0 2"], peakLines := ["1 2", "3\t4"] }]

/-- Concrete query sequence, deliberately out of order and with repeats. -/
def qs0 : List MgfQuery :=
  [MgfQuery.byIndex 1, MgfQuery.byId "A\n", MgfQuery.byIndex 0,
   MgfQuery.byId "B\n", MgfQuery.byIndex 1]

/-! ## Basic lemmas about line reading and trimming -/

theorem takeLine_line (body rest : List Char) (h : '\n' ∉ body) :
    takeLine (body ++ '\n' :: rest) = (body ++ ['\n'], rest) := by
  induction body with
  | nil => simp [takeLine]
  | cons c cs ih =>
    have hc : c ≠ '\n' := by
      intro hcc
      exact h (hcc ▸ List.mem_cons_self c cs)
    have ih' := ih (fun hm => h (List.mem_cons_of_mem c hm))
    simp [takeLine, hc, ih']

theorem dropWhile_eq_self_of_length (p : Char → Bool) (l : List Char)
    (h : (l.dropWhile p).length = l.length) : l.dropWhile p = l :=
  List.IsSuffix.eq_of_length (List.dropWhile_suffix p) h

theorem trimChars_parts (l : List Char) (h : trimChars l = l) :
    l.dropWhile rustIsWS = l ∧ l.reverse.dropWhile rustIsWS = l.reverse := by
  have h1 : (l.dropWhile rustIsWS).length ≤ l.length :=
    (List.dropWhile_suffix _).length_le
  have h3 : (trimChars l).length = l.length := by rw [h]
  have h4 : (((l.dropWhile rustIsWS).reverse).dropWhile rustIsWS).length ≤
      (l.dropWhile rustIsWS).length := by
    have := (List.dropWhile_suffix (l := (l.dropWhile rustIsWS).reverse) rustIsWS).length_le
    simpa using this
  have h5 : (((l.dropWhile rustIsWS).reverse).dropWhile rustIsWS).length = l.length := by
    unfold trimChars at h3
    simpa using h3
  have e1 : (l.dropWhile rustIsWS).length = l.length := le_antisymm h1 (by omega)
  have ha : l.dropWhile rustIsWS = l := dropWhile_eq_self_of_length _ _ e1
  refine ⟨ha, ?_⟩
  have hb : (l.reverse.dropWhile rustIsWS).reverse = l := by
    have h6 := h
    unfold trimChars at h6
    rw [ha] at h6
    exact h6
  have := congrArg List.reverse hb
  simpa using this

theorem trimChars_line (l : List Char) (h : trimChars l = l) (hne : l ≠ []) :
    trimChars (l ++ ['\n']) = l := by
  obtain ⟨ha, hb⟩ := trimChars_parts l h
  obtain ⟨c, cs, rfl⟩ := List.exists_cons_of_ne_nil hne
  have hc : rustIsWS c = false := by
    by_contra hcc
    have hcc' : rustIsWS c = true := by
      cases hrw : rustIsWS c
      · exact absurd hrw hcc
      · rfl
    rw [List.dropWhile_cons, hcc'] at ha
    have := (List.dropWhile_suffix (l := cs) rustIsWS).length_le
    have := congrArg List.length ha
    simp at this
    omega
  unfold trimChars
  have hstep1 : (c :: cs ++ ['\n']).dropWhile rustIsWS = c :: (cs ++ ['\n']) := by
    rw [List.cons_append, List.dropWhile_cons, hc]
    simp
  rw [hstep1]
  have hrev : (c :: (cs ++ ['\n'])).reverse = '\n' :: (c :: cs).reverse := by
    simp
  rw [hrev, List.dropWhile_cons]
  have hnl : rustIsWS '\n' = true := by decide
  rw [hnl]
  simp only [if_true]
  rw [hb]
  simp

theorem rustTrim_line (s : String) (h : rustTrim s = s) (hne : s ≠ "") :
    rustTrim (String.mk (s.data ++ ['\n'])) = s := by
  have hdata : trimChars s.data = s.data := congrArg String.data h
  have hne' : s.data ≠ [] := by
    intro hl
    apply hne
    cases s
    simp at hl
    simp [hl]
  unfold rustTrim
  rw [trimChars_line s.data hdata hne']

theorem lineClean_spec (s : String) (h : lineClean s = true) :
    rustTrim s = s ∧ s ≠ "" ∧ '\n' ∉ s.data := by
  unfold lineClean at h
  simp only [Bool.and_eq_true, beq_iff_eq, bne_iff_ne, ne_eq, Bool.not_eq_true'] at h
  obtain ⟨⟨h1, h2⟩, h3⟩ := h
  refine ⟨h1, h2, ?_⟩
  intro hm
  have : s.data.contains '\n' = true := List.elem_eq_true_of_mem hm
  rw [this] at h3
  cases h3

theorem length_mk (l : List Char) : (String.mk l).length = l.length := rfl

theorem ne_empty_data (s : String) (h : s ≠ "") : s.data ≠ [] := by
  intro hl
  apply h
  cases s
  simp at hl
  simp [hl]

theorem read_into_loop_step (pre rest : List Char) (s : String)
    (st : MGFParserState) (er : MGFError) (o : Nat) (idx : OffsetIndex)
    (d : SpectrumDescription) (p : PeakSet) (off : Nat)
    (hclean : lineClean s = true) :
    read_into_loop
      ⟨⟨pre ++ (s.data ++ '\n' :: rest), none, pre.length⟩, st, o, er, idx⟩ d p off =
    match stepLine st er s d p with
    | HOut.panicked st' er' m =>
      PRes.panicked
        ⟨⟨pre ++ (s.data ++ '\n' :: rest), none, pre.length + (s.length + 1)⟩, st', o, er', idx⟩ m
    | HOut.ok st' er' work d' p' =>
      if work then
        read_into_loop
          ⟨⟨pre ++ (s.data ++ '\n' :: rest), none, pre.length + (s.length + 1)⟩, st', o, er', idx⟩
          d' p' (off + (s.length + 1))
      else
        PRes.ok
          ⟨⟨pre ++ (s.data ++ '\n' :: rest), none, pre.length + (s.length + 1)⟩, st', o, er', idx⟩
          (Except.ok (off + (s.length + 1)), d', p') := by
  obtain ⟨htrim, hne, hnl⟩ := lineClean_spec s hclean
  conv_lhs => rw [read_into_loop]
  dsimp only
  rw [List.drop_left, takeLine_line s.data rest hnl]
  have hb : (String.mk (s.data ++ ['\n'])).length ≠ 0 := by
    simp [length_mk]
  rw [dif_neg hb]
  rw [rustTrim_line s htrim hne]
  have hsl : ¬ s.length = 0 := by
    have := ne_empty_data s hne
    cases s
    simpa [length_mk] using this
  rw [if_neg hsl]
  have hblen : (String.mk (s.data ++ ['\n'])).length = s.length + 1 := by
    simp [length_mk]
  rw [hblen]
  rfl

theorem read_into_loop_eof (dta : List Char) (st : MGFParserState) (er : MGFError)
    (o : Nat) (idx : OffsetIndex) (d : SpectrumDescription) (p : PeakSet) (off : Nat) :
    read_into_loop ⟨⟨dta, none, dta.length⟩, st, o, er, idx⟩ d p off =
      PRes.ok ⟨⟨dta, none, dta.length⟩, MGFParserState.Done, o, er, idx⟩
        (Except.ok off, d, p) := by
  conv_lhs => rw [read_into_loop]
  dsimp only
  rw [List.drop_length]
  rfl

theorem read_into_loop_fail (r : MGFReader) (d : SpectrumDescription) (p : PeakSet)
    (off : Nat) (h : handleFails r.handle = true) :
    read_into_loop r d p off =
      PRes.ok { r with error := MGFError.IOError, state := MGFParserState.Error }
        (Except.error MGFError.IOError, d, p) := by
  conv_lhs => rw [read_into_loop]
  rw [if_pos h]

theorem stepLine_eq_start (er : MGFError) (line : String) (d : SpectrumDescription)
    (p : PeakSet) :
    stepLine MGFParserState.Start er line d p =
      (let s := handle_start MGFParserState.Start line
       if s.1 = MGFParserState.Error then HOut.panicked s.1 er "MGF Parsing Error"
       else HOut.ok s.1 er s.2 d p) := rfl

theorem stepLine_eq_between (er : MGFError) (line : String) (d : SpectrumDescription)
    (p : PeakSet) :
    stepLine MGFParserState.Between er line d p =
      (let s := handle_between MGFParserState.Between line
       if s.1 = MGFParserState.Error then HOut.panicked s.1 er "MGF Parsing Error"
       else HOut.ok s.1 er s.2 d p) := rfl

theorem stepLine_eq_scanheaders (er : MGFError) (line : String)
    (d : SpectrumDescription) (p : PeakSet) :
    stepLine MGFParserState.ScanHeaders er line d p =
      (match handle_scan_header MGFParserState.ScanHeaders er line d p with
       | HOut.ok st' er' w d' p' =>
         if st' = MGFParserState.Error then HOut.panicked st' er' "MGF Parsing Error"
         else HOut.ok st' er' w d' p'
       | pan => pan) := rfl

theorem stepLine_eq_peaks (er : MGFError) (line : String)
    (d : SpectrumDescription) (p : PeakSet) :
    stepLine MGFParserState.Peaks er line d p =
      (match handle_peak MGFParserState.Peaks er line p with
       | HPOut.panicked st' er' m => HOut.panicked st' er' m
       | HPOut.ok st' er' w p' =>
         if st' = MGFParserState.Error then HOut.panicked st' er' "MGF Parsing Error"
         else HOut.ok st' er' w d p') := by
  cases h : handle_peak MGFParserState.Peaks er line p <;> simp [stepLine, h]

theorem stepLine_eq_done (er : MGFError) (line : String)
    (d : SpectrumDescription) (p : PeakSet) :
    stepLine MGFParserState.Done er line d p = HOut.ok MGFParserState.Done er true d p := rfl

theorem handle_start_begin (st : MGFParserState) :
    handle_start st "BEGIN IONS" = (MGFParserState.ScanHeaders, true) := rfl

theorem handle_between_begin (st : MGFParserState) :
    handle_between st "BEGIN IONS" = (MGFParserState.ScanHeaders, true) := rfl

theorem stepLine_begin_start (er : MGFError) (d : SpectrumDescription) (p : PeakSet) :
    stepLine MGFParserState.Start er "BEGIN IONS" d p =
      HOut.ok MGFParserState.ScanHeaders er true d p := rfl

theorem stepLine_begin_between (er : MGFError) (d : SpectrumDescription) (p : PeakSet) :
    stepLine MGFParserState.Between er "BEGIN IONS" d p =
      HOut.ok MGFParserState.ScanHeaders er true d p := rfl

theorem peakLineOk_spec (s : String) (h : peakLineOk s = true) :
    lineClean s = true ∧ (∃ c cs, s.data = c :: cs ∧ charIsNumeric c = true) ∧
    2 ≤ (peakSeparatorSplit s).length ∧
    (∃ mz, parseF64 (((peakSeparatorSplit s).get? 0).getD "") = some mz) ∧
    (∃ p1 inten, (peakSeparatorSplit s).get? 1 = some p1 ∧ parseF32 p1 = some inten) := by
  unfold peakLineOk at h
  simp only [Bool.and_eq_true, decide_eq_true_eq, Option.isSome_iff_exists] at h
  obtain ⟨⟨h1, h2⟩, ⟨h3, ⟨mz, hmz⟩⟩, ⟨inten, hint⟩⟩ := h
  refine ⟨h1, ?_, h3, ⟨mz, hmz⟩, ?_⟩
  · cases hd : s.data with
    | nil => rw [hd] at h2; cases h2
    | cons c cs =>
      rw [hd] at h2
      exact ⟨c, cs, rfl, h2⟩
  · have hget1 : ∃ p1, (peakSeparatorSplit s).get? 1 = some p1 := by
      rw [List.get?_eq_get (by omega)]
      exact ⟨_, rfl⟩
    obtain ⟨p1, hp1⟩ := hget1
    refine ⟨p1, inten, hp1, ?_⟩
    rw [hp1] at hint
    simpa using hint

theorem ppl_peak (st : MGFParserState) (er : MGFError) (s : String)
    (hok : peakLineOk s = true) :
    parse_peak_from_line st er s = PPOut.ok st er (some (peakOf s)) := by
  obtain ⟨hclean, ⟨c, cs, hdata, hnum⟩, hlen, ⟨mz, hmz⟩, ⟨p1, inten, hget1, hint⟩⟩ :=
    peakLineOk_spec s hok
  have hpeak : peakOf s = { mz := mz, intensity := inten } := by
    unfold peakOf
    simp only [hget1, hmz, Option.getD_some, hint]
  unfold parse_peak_from_line
  rw [hdata]
  have hns : ¬ (peakSeparatorSplit s).length < 2 := by omega
  simp only [hnum, if_true, hns, if_false, hmz, hget1, hint, hpeak]

theorem ppl_nonnum (st : MGFParserState) (er : MGFError) (s : String)
    (c : Char) (cs : List Char) (hdata : s.data = c :: cs)
    (hc : charIsNumeric c = false) :
    parse_peak_from_line st er s = PPOut.ok st er none := by
  unfold parse_peak_from_line
  rw [hdata]
  simp [hc]

theorem hsh_peak (st : MGFParserState) (er : MGFError) (s : String)
    (d : SpectrumDescription) (p : PeakSet) (hok : peakLineOk s = true) :
    handle_scan_header st er s d p =
      HOut.ok MGFParserState.Peaks er true d (p ++ [peakOf s]) := by
  unfold handle_scan_header
  rw [ppl_peak st er s hok]

theorem hp_peak (st : MGFParserState) (er : MGFError) (s : String)
    (p : PeakSet) (hok : peakLineOk s = true) :
    handle_peak st er s p = HPOut.ok st er true (p ++ [peakOf s]) := by
  unfold handle_peak
  rw [ppl_peak st er s hok]

theorem hsh_end (st : MGFParserState) (er : MGFError)
    (d : SpectrumDescription) (p : PeakSet) :
    handle_scan_header st er "END IONS" d p =
      HOut.ok MGFParserState.Between er true d p := rfl

theorem hp_end (st : MGFParserState) (er : MGFError) (p : PeakSet) :
    handle_peak st er "END IONS" p = HPOut.ok MGFParserState.Between er false p := rfl

theorem hsh_title (er : MGFError) (t : String)
    (d : SpectrumDescription) (p : PeakSet) :
    handle_scan_header MGFParserState.ScanHeaders er ("TITLE=" ++ t) d p =
      HOut.ok MGFParserState.ScanHeaders er true { d with id := t } p := by
  have hdata : ("TITLE=" ++ t).data = 'T' :: 'I' :: 'T' :: 'L' :: 'E' :: '=' :: t.data := by
    rw [String.data_append]
    rfl
  have hne : ("TITLE=" ++ t) ≠ "END IONS" := by
    intro hq
    have h2 := congrArg String.data hq
    rw [hdata] at h2
    simp at h2
  have hcontains : strContains ("TITLE=" ++ t) '=' = true := by
    unfold strContains
    rw [hdata]
    exact List.elem_eq_true_of_mem (by simp)
  have hkey : strTakeUntilEq ("TITLE=" ++ t) = "TITLE" := by
    unfold strTakeUntilEq
    rw [hdata]
    simp +decide [List.takeWhile_cons]
  have hval : strAfterEq ("TITLE=" ++ t) = t := by
    unfold strAfterEq
    rw [hdata]
    simp +decide [List.takeWhile_cons]
  unfold handle_scan_header
  rw [ppl_nonnum _ _ _ _ _ hdata (by decide)]
  simp only [hne, if_false, hcontains, if_true, hkey, hval]


theorem takeWhile_eq_decomp (l : List Char) (hc : l.contains '=' = true) :
    l = l.takeWhile (fun c => c != '=') ++
      '=' :: l.drop ((l.takeWhile (fun c => c != '=')).length + 1) := by
  induction l with
  | nil => simp at hc
  | cons a as ih =>
    by_cases ha : a = '='
    · subst ha
      simp
    · have ha' : (a != '=') = true := bne_iff_ne.mpr ha
      have hc' : as.contains '=' = true := by
        have hcc : ('=' == a || as.contains '=') = true := by
          simpa [List.contains_cons] using hc
        have hab : ('=' == a) = false := by
          simp [beq_eq_false_iff_ne]
          exact fun hq => ha hq.symm
        rw [hab] at hcc
        simpa using hcc
      have ih' := ih hc'
      rw [List.takeWhile_cons]
      simp only [ha', if_true]
      simp only [List.length_cons, List.cons_append, List.drop_succ_cons]
      exact congrArg (List.cons a) ih'

theorem key_ne_of_not_title (hl : String) (hcont : strContains hl '=' = true)
    (hsw : strStartsWith hl "TITLE=" = false) : strTakeUntilEq hl ≠ "TITLE" := by
  intro hk
  have hdataeq : hl.data.takeWhile (fun c => c != '=') = "TITLE".data :=
    congrArg String.data hk
  have hdecomp := takeWhile_eq_decomp hl.data hcont
  rw [hdataeq] at hdecomp
  have hpre : strStartsWith hl "TITLE=" = true := by
    unfold strStartsWith
    rw [hdecomp]
    have : ("TITLE=".data) = "TITLE".data ++ ['='] := by rfl
    rw [this]
    rw [List.isPrefixOf_iff_prefix]
    exact ⟨hl.data.drop ("TITLE".data.length + 1), by simp⟩
  rw [hpre] at hsw
  cases hsw

theorem headerOk_spec (hl : String) (hok : headerOk hl = true) :
    lineClean hl = true ∧ (∃ c cs, hl.data = c :: cs ∧ charIsNumeric c = false) ∧
    hl ≠ "END IONS" ∧ strContains hl '=' = true ∧
    strStartsWith hl "TITLE=" = false ∧ strStartsWith hl "BEGIN IONS" = false ∧
    headerActionOk hl = true := by
  unfold headerOk at hok
  simp only [Bool.and_eq_true, bne_iff_ne, ne_eq, Bool.not_eq_true'] at hok
  obtain ⟨⟨⟨⟨⟨⟨h1, h2⟩, h3⟩, h4⟩, h5⟩, h6⟩, h7⟩ := hok
  refine ⟨h1, ?_, h3, h4, h5, h6, h7⟩
  cases hd : hl.data with
  | nil => rw [hd] at h2; cases h2
  | cons c cs =>
    rw [hd] at h2
    simp only [Bool.not_eq_true'] at h2
    exact ⟨c, cs, rfl, h2⟩

theorem hsh_header (er : MGFError) (hl : String) (d : SpectrumDescription) (p : PeakSet)
    (hok : headerOk hl = true) :
    handle_scan_header MGFParserState.ScanHeaders er hl d p =
      HOut.ok MGFParserState.ScanHeaders er true (applyHeader d hl) p := by
  obtain ⟨hclean, ⟨c, cs, hdata, hnotnum⟩, hne, hcont, hsw1, hsw2, haction⟩ :=
    headerOk_spec hl hok
  have hkeyne : strTakeUntilEq hl ≠ "TITLE" := key_ne_of_not_title hl hcont hsw1
  unfold handle_scan_header
  rw [ppl_nonnum _ _ _ _ _ hdata hnotnum]
  dsimp only
  rw [if_neg hne, if_pos hcont]
  unfold applyHeader
  dsimp only
  rw [if_neg hkeyne, if_neg hkeyne]
  by_cases hk1 : strTakeUntilEq hl = "RTINSECONDS"
  · rw [if_pos hk1, if_pos hk1]
    unfold headerActionOk at haction
    dsimp only at haction
    have hb1 : (strTakeUntilEq hl == "RTINSECONDS") = true := by
      rw [hk1]
      exact beq_self_eq_true _
    rw [hb1] at haction
    simp only [if_true] at haction
    obtain ⟨t, ht⟩ := Option.isSome_iff_exists.mp haction
    rw [ht]
    simp [Option.getD_some]
  · rw [if_neg hk1, if_neg hk1]
    by_cases hk2 : strTakeUntilEq hl = "PEPMASS"
    · rw [if_pos hk2, if_pos hk2]
      unfold headerActionOk at haction
      dsimp only at haction
      have hb1 : (strTakeUntilEq hl == "RTINSECONDS") = false := beq_eq_false_iff_ne.mpr hk1
      have hb2 : (strTakeUntilEq hl == "PEPMASS") = true := by
        rw [hk2]
        exact beq_self_eq_true _
      rw [hb1, hb2] at haction
      simp only [Bool.false_eq_true, if_false, if_true] at haction
      simp only [Bool.and_eq_true, decide_eq_true_eq] at haction
      obtain ⟨⟨⟨hlen, hmzS⟩, hintS⟩, hchargeS⟩ := haction
      obtain ⟨p0, hp0⟩ : ∃ p0, (splitAsciiWS (strAfterEq hl)).get? 0 = some p0 :=
        ⟨_, List.get?_eq_get (by omega)⟩
      obtain ⟨p1, hp1⟩ : ∃ p1, (splitAsciiWS (strAfterEq hl)).get? 1 = some p1 :=
        ⟨_, List.get?_eq_get (by omega)⟩
      rw [hp0, Option.getD_some] at hmzS
      rw [hp1, Option.getD_some] at hintS
      obtain ⟨mzv, hmzv⟩ := Option.isSome_iff_exists.mp hmzS
      obtain ⟨inv, hinv⟩ := Option.isSome_iff_exists.mp hintS
      simp only [hp0, hmzv, hp1, hinv]
      by_cases hlen2 : 2 < (splitAsciiWS (strAfterEq hl)).length
      · rw [if_pos hlen2, if_pos hlen2]
        have hcis : (parseI32 (((splitAsciiWS (strAfterEq hl)).get? 2).getD "")).isSome = true := by
          rcases (Bool.or_eq_true _ _).mp hchargeS with hq | hq
          · exfalso
            have := of_decide_eq_true hq
            omega
          · exact hq
        obtain ⟨cv, hcv⟩ := Option.isSome_iff_exists.mp hcis
        simp only [hcv]
        simp [hp0, hp1, hmzv, hinv, hcv, Option.getD_some]
      · rw [if_neg hlen2, if_neg hlen2]
        simp [hp0, hp1, hmzv, hinv, Option.getD_some]
    · rw [if_neg hk2, if_neg hk2]

theorem read_into_loop_step2 (D rest : List Char) (P : Nat) (s : String)
    (st : MGFParserState) (er : MGFError) (o : Nat) (idx : OffsetIndex)
    (d : SpectrumDescription) (p : PeakSet) (off : Nat)
    (hdrop : D.drop P = s.data ++ '\n' :: rest)
    (hclean : lineClean s = true) :
    read_into_loop ⟨⟨D, none, P⟩, st, o, er, idx⟩ d p off =
    match stepLine st er s d p with
    | HOut.panicked st' er' m =>
      PRes.panicked ⟨⟨D, none, P + (s.length + 1)⟩, st', o, er', idx⟩ m
    | HOut.ok st' er' work d' p' =>
      if work then
        read_into_loop ⟨⟨D, none, P + (s.length + 1)⟩, st', o, er', idx⟩
          d' p' (off + (s.length + 1))
      else
        PRes.ok ⟨⟨D, none, P + (s.length + 1)⟩, st', o, er', idx⟩
          (Except.ok (off + (s.length + 1)), d', p') := by
  obtain ⟨htrim, hne, hnl⟩ := lineClean_spec s hclean
  conv_lhs => rw [read_into_loop]
  dsimp only
  rw [hdrop, takeLine_line s.data rest hnl]
  have hb : (String.mk (s.data ++ ['\n'])).length ≠ 0 := by
    simp [length_mk]
  rw [dif_neg hb]
  rw [rustTrim_line s htrim hne]
  have hsl : ¬ s.length = 0 := by
    have := ne_empty_data s hne
    cases s
    simpa [length_mk] using this
  rw [if_neg hsl]
  have hblen : (String.mk (s.data ++ ['\n'])).length = s.length + 1 := by
    simp [length_mk]
  rw [hblen]
  rfl

theorem read_into_loop_eof2 (D : List Char) (P : Nat) (hdrop : D.drop P = [])
    (st : MGFParserState) (o : Nat) (er : MGFError) (idx : OffsetIndex)
    (d : SpectrumDescription) (p : PeakSet) (off : Nat) :
    read_into_loop ⟨⟨D, none, P⟩, st, o, er, idx⟩ d p off =
      PRes.ok ⟨⟨D, none, P⟩, MGFParserState.Done, o, er, idx⟩ (Except.ok off, d, p) := by
  conv_lhs => rw [read_into_loop]
  dsimp only
  rw [hdrop]
  rfl

theorem drop_advance (D rest X : List Char) (P n : Nat)
    (hdrop : D.drop P = X ++ rest) (hn : n = X.length) : D.drop (P + n) = rest := by
  subst hn
  rw [← List.drop_drop, hdrop, List.drop_left]

theorem stepLine_title (er : MGFError) (t : String) (d : SpectrumDescription)
    (p : PeakSet) :
    stepLine MGFParserState.ScanHeaders er ("TITLE=" ++ t) d p =
      HOut.ok MGFParserState.ScanHeaders er true { d with id := t } p := by
  rw [stepLine_eq_scanheaders, hsh_title]
  rfl

theorem stepLine_header (er : MGFError) (hl : String) (d : SpectrumDescription)
    (p : PeakSet) (hok : headerOk hl = true) :
    stepLine MGFParserState.ScanHeaders er hl d p =
      HOut.ok MGFParserState.ScanHeaders er true (applyHeader d hl) p := by
  rw [stepLine_eq_scanheaders, hsh_header er hl d p hok]
  rfl

theorem stepLine_peak_sh (er : MGFError) (s : String) (d : SpectrumDescription)
    (p : PeakSet) (hok : peakLineOk s = true) :
    stepLine MGFParserState.ScanHeaders er s d p =
      HOut.ok MGFParserState.Peaks er true d (p ++ [peakOf s]) := by
  rw [stepLine_eq_scanheaders, hsh_peak _ _ _ _ _ hok]
  rfl

theorem stepLine_peak_pk (er : MGFError) (s : String) (d : SpectrumDescription)
    (p : PeakSet) (hok : peakLineOk s = true) :
    stepLine MGFParserState.Peaks er s d p =
      HOut.ok MGFParserState.Peaks er true d (p ++ [peakOf s]) := by
  rw [stepLine_eq_peaks, hp_peak _ _ _ _ hok]
  rfl

theorem stepLine_end_pk (er : MGFError) (d : SpectrumDescription) (p : PeakSet) :
    stepLine MGFParserState.Peaks er "END IONS" d p =
      HOut.ok MGFParserState.Between er false d p := by
  rw [stepLine_eq_peaks, hp_end]
  rfl

theorem stepLine_end_sh (er : MGFError) (d : SpectrumDescription) (p : PeakSet) :
    stepLine MGFParserState.ScanHeaders er "END IONS" d p =
      HOut.ok MGFParserState.Between er true d p := by
  rw [stepLine_eq_scanheaders, hsh_end]
  rfl

theorem str_length_data (s : String) : s.length = s.data.length := rfl

theorem phase_headers (D : List Char) (hs : List String) :
    ∀ (hall : hs.all headerOk = true) (tail : List Char) (P : Nat)
      (hdrop : D.drop P = (hs.map lineChars).join ++ tail)
      (o : Nat) (er : MGFError) (idx : OffsetIndex)
      (d : SpectrumDescription) (p : PeakSet) (off : Nat),
    read_into_loop ⟨⟨D, none, P⟩, MGFParserState.ScanHeaders, o, er, idx⟩ d p off =
    read_into_loop
      ⟨⟨D, none, P + ((hs.map lineChars).join).length⟩,
        MGFParserState.ScanHeaders, o, er, idx⟩
      (hs.foldl applyHeader d) p (off + ((hs.map lineChars).join).length) := by
  induction hs with
  | nil =>
    intro hall tail P hdrop o er idx d p off
    simp
  | cons h hs ih =>
    intro hall tail P hdrop o er idx d p off
    rw [List.all_cons, Bool.and_eq_true] at hall
    obtain ⟨hok1, hok2⟩ := hall
    have hclean : lineClean h = true := (headerOk_spec h hok1).1
    have hdrop1 : D.drop P = h.data ++ '\n' :: ((hs.map lineChars).join ++ tail) := by
      simpa [lineChars, List.append_assoc] using hdrop
    rw [read_into_loop_step2 D ((hs.map lineChars).join ++ tail) P h _ er o idx d p off
      hdrop1 hclean]
    rw [stepLine_header er h d p hok1]
    dsimp only
    have hdrop2 : D.drop (P + (h.length + 1)) = (hs.map lineChars).join ++ tail := by
      refine drop_advance D _ (h.data ++ ['\n']) P _ ?_ ?_
      · simpa [List.append_assoc] using hdrop1
      · simp
    rw [ih hok2 tail (P + (h.length + 1)) hdrop2 o er idx (applyHeader d h) p
      (off + (h.length + 1))]
    have e1 : P + (h.length + 1) + ((hs.map lineChars).join).length =
        P + (((h :: hs).map lineChars).join).length := by
      simp [lineChars]
      omega
    have e2 : off + (h.length + 1) + ((hs.map lineChars).join).length =
        off + (((h :: hs).map lineChars).join).length := by
      simp [lineChars]
      omega
    rw [e1, e2]
    rfl

theorem phase_peaks (D : List Char) (ps : List String) :
    ∀ (hall : ps.all peakLineOk = true) (tail : List Char) (P : Nat)
      (hdrop : D.drop P = (ps.map lineChars).join ++ tail)
      (o : Nat) (er : MGFError) (idx : OffsetIndex)
      (d : SpectrumDescription) (p : PeakSet) (off : Nat),
    read_into_loop ⟨⟨D, none, P⟩, MGFParserState.Peaks, o, er, idx⟩ d p off =
    read_into_loop
      ⟨⟨D, none, P + ((ps.map lineChars).join).length⟩,
        MGFParserState.Peaks, o, er, idx⟩
      d (p ++ ps.map peakOf) (off + ((ps.map lineChars).join).length) := by
  induction ps with
  | nil =>
    intro hall tail P hdrop o er idx d p off
    simp
  | cons s ps ih =>
    intro hall tail P hdrop o er idx d p off
    rw [List.all_cons, Bool.and_eq_true] at hall
    obtain ⟨hok1, hok2⟩ := hall
    have hclean : lineClean s = true := (peakLineOk_spec s hok1).1
    have hdrop1 : D.drop P = s.data ++ '\n' :: ((ps.map lineChars).join ++ tail) := by
      simpa [lineChars, List.append_assoc] using hdrop
    rw [read_into_loop_step2 D ((ps.map lineChars).join ++ tail) P s _ er o idx d p off
      hdrop1 hclean]
    rw [stepLine_peak_pk er s d p hok1]
    dsimp only
    have hdrop2 : D.drop (P + (s.length + 1)) = (ps.map lineChars).join ++ tail := by
      refine drop_advance D _ (s.data ++ ['\n']) P _ ?_ ?_
      · simpa [List.append_assoc] using hdrop1
      · simp
    rw [ih hok2 tail (P + (s.length + 1)) hdrop2 o er idx d (p ++ [peakOf s])
      (off + (s.length + 1))]
    have e1 : P + (s.length + 1) + ((ps.map lineChars).join).length =
        P + (((s :: ps).map lineChars).join).length := by
      simp [lineChars]
      omega
    have e2 : off + (s.length + 1) + ((ps.map lineChars).join).length =
        off + (((s :: ps).map lineChars).join).length := by
      simp [lineChars]
      omega
    rw [e1, e2]
    simp [List.append_assoc]

theorem recordOk_spec (rec : MGFRecordSrc) (h : recordOk rec = true) :
    titleOk rec.title = true ∧ rec.headers.all headerOk = true ∧
    rec.peakLines.all peakLineOk = true ∧ rec.peakLines ≠ [] := by
  unfold recordOk at h
  simp only [Bool.and_eq_true, Bool.not_eq_true'] at h
  obtain ⟨⟨⟨h1, h2⟩, h3⟩, h4⟩ := h
  refine ⟨h1, h2, h3, ?_⟩
  intro hq
  rw [hq] at h4
  cases h4

theorem titleOk_lineClean (t : String) (h : titleOk t = true) :
    lineClean ("TITLE=" ++ t) = true := by
  unfold titleOk at h
  simp only [Bool.and_eq_true, Bool.not_eq_true', beq_iff_eq] at h
  obtain ⟨h1, h2⟩ := h
  unfold lineClean
  simp only [Bool.and_eq_true, beq_iff_eq, bne_iff_ne, ne_eq, Bool.not_eq_true']
  refine ⟨⟨h2, ?_⟩, ?_⟩
  · intro hq
    have hd := congrArg String.data hq
    rw [String.data_append] at hd
    simp at hd
  · cases hc : (("TITLE=" ++ t).data).contains '\n'
    · rfl
    · exfalso
      have hmem : '\n' ∈ ("TITLE=" ++ t).data := List.mem_of_elem_eq_true hc
      rw [String.data_append] at hmem
      rcases List.mem_append.mp hmem with hm | hm
      · simp at hm
      · have h1e : List.elem '\n' t.data = false := h1
        have := List.elem_eq_true_of_mem hm
        rw [this] at h1e
        cases h1e

theorem decode_record (D : List Char) (rec : MGFRecordSrc) (hrec : recordOk rec = true)
    (P : Nat) (rest : List Char)
    (hdrop : D.drop P = renderRecord rec ++ rest)
    (st : MGFParserState)
    (hst : st = MGFParserState.Start ∨ st = MGFParserState.Between)
    (o : Nat) (er : MGFError) (idx : OffsetIndex)
    (d : SpectrumDescription) (p : PeakSet) (off : Nat) :
    read_into_loop ⟨⟨D, none, P⟩, st, o, er, idx⟩ d p off =
      PRes.ok
        ⟨⟨D, none, P + (renderRecord rec).length⟩, MGFParserState.Between, o, er, idx⟩
        (Except.ok (off + (renderRecord rec).length),
          rec.headers.foldl applyHeader { d with id := rec.title },
          p ++ rec.peakLines.map peakOf) := by
  obtain ⟨htitle, hheaders, hpeaks, hne⟩ := recordOk_spec rec hrec
  obtain ⟨q, qs, hq⟩ := List.exists_cons_of_ne_nil hne
  rw [hq] at hpeaks
  rw [List.all_cons, Bool.and_eq_true] at hpeaks
  obtain ⟨hq1, hqs⟩ := hpeaks
  -- the fully right-associated layout of the record
  have hlayout : renderRecord rec ++ rest =
      "BEGIN IONS".data ++ '\n' ::
        (("TITLE=" ++ rec.title).data ++ '\n' ::
          ((rec.headers.map lineChars).join ++
            (q.data ++ '\n' ::
              ((qs.map lineChars).join ++
                ("END IONS".data ++ '\n' :: rest))))) := by
    simp [renderRecord, lineChars, hq, List.append_assoc]
  rw [hlayout] at hdrop
  -- step 1: BEGIN IONS
  rw [read_into_loop_step2 D _ P "BEGIN IONS" st er o idx d p off hdrop (by decide)]
  have hbegin : stepLine st er "BEGIN IONS" d p =
      HOut.ok MGFParserState.ScanHeaders er true d p := by
    rcases hst with hst | hst <;> rw [hst]
    · exact stepLine_begin_start er d p
    · exact stepLine_begin_between er d p
  rw [hbegin]
  dsimp only
  -- step 2: TITLE line
  have hdrop2 : D.drop (P + ("BEGIN IONS".length + 1)) =
      ("TITLE=" ++ rec.title).data ++ '\n' ::
        ((rec.headers.map lineChars).join ++
          (q.data ++ '\n' ::
            ((qs.map lineChars).join ++ ("END IONS".data ++ '\n' :: rest)))) := by
    refine drop_advance D _ ("BEGIN IONS".data ++ ['\n']) P _ ?_ ?_
    · simpa [List.append_assoc] using hdrop
    · simp +decide
  rw [read_into_loop_step2 D _ _ ("TITLE=" ++ rec.title) _ er o idx d p _ hdrop2
    (titleOk_lineClean rec.title htitle)]
  rw [stepLine_title]
  dsimp only
  -- phase: header lines
  have hdrop3 : D.drop (P + ("BEGIN IONS".length + 1) + (("TITLE=" ++ rec.title).length + 1)) =
      (rec.headers.map lineChars).join ++
        (q.data ++ '\n' :: ((qs.map lineChars).join ++ ("END IONS".data ++ '\n' :: rest))) := by
    refine drop_advance D _ (("TITLE=" ++ rec.title).data ++ ['\n']) _ _ ?_ ?_
    · simpa [List.append_assoc] using hdrop2
    · simp [show "TITLE=".length = 6 from rfl]
      omega
  rw [phase_headers D rec.headers hheaders _ _ hdrop3 o er idx _ p _]
  -- step 3: first peak line
  have hdrop4 : D.drop (P + ("BEGIN IONS".length + 1) + (("TITLE=" ++ rec.title).length + 1) +
      ((rec.headers.map lineChars).join).length) =
      q.data ++ '\n' :: ((qs.map lineChars).join ++ ("END IONS".data ++ '\n' :: rest)) := by
    refine drop_advance D _ ((rec.headers.map lineChars).join) _ _ hdrop3 rfl
  rw [read_into_loop_step2 D _ _ q _ er o idx _ _ _ hdrop4 (peakLineOk_spec q hq1).1]
  rw [stepLine_peak_sh er q _ _ hq1]
  dsimp only
  -- phase: remaining peak lines
  have hdrop5 : D.drop (P + ("BEGIN IONS".length + 1) + (("TITLE=" ++ rec.title).length + 1) +
      ((rec.headers.map lineChars).join).length + (q.length + 1)) =
      (qs.map lineChars).join ++ ("END IONS".data ++ '\n' :: rest) := by
    refine drop_advance D _ (q.data ++ ['\n']) _ _ ?_ ?_
    · simpa [List.append_assoc] using hdrop4
    · simp +decide
  rw [phase_peaks D qs hqs _ _ hdrop5 o er idx _ _ _]
  -- step 4: END IONS
  have hdrop6 : D.drop (P + ("BEGIN IONS".length + 1) + (("TITLE=" ++ rec.title).length + 1) +
      ((rec.headers.map lineChars).join).length + (q.length + 1) +
      ((qs.map lineChars).join).length) =
      "END IONS".data ++ '\n' :: rest := by
    refine drop_advance D _ ((qs.map lineChars).join) _ _ hdrop5 rfl
  rw [read_into_loop_step2 D rest _ "END IONS" _ er o idx _ _ _ hdrop6 (by decide)]
  rw [stepLine_end_pk]
  dsimp only
  -- assemble
  have epos : P + ("BEGIN IONS".length + 1) + (("TITLE=" ++ rec.title).length + 1) +
      ((rec.headers.map lineChars).join).length + (q.length + 1) +
      ((qs.map lineChars).join).length + ("END IONS".length + 1) =
      P + (renderRecord rec).length := by
    simp [renderRecord, lineChars, hq, show "BEGIN IONS".length = 10 from rfl,
      show "TITLE=".length = 6 from rfl, show "END IONS".length = 8 from rfl]
    omega
  have eoff : off + ("BEGIN IONS".length + 1) + (("TITLE=" ++ rec.title).length + 1) +
      ((rec.headers.map lineChars).join).length + (q.length + 1) +
      ((qs.map lineChars).join).length + ("END IONS".length + 1) =
      off + (renderRecord rec).length := by
    simp [renderRecord, lineChars, hq, show "BEGIN IONS".length = 10 from rfl,
      show "TITLE=".length = 6 from rfl, show "END IONS".length = 8 from rfl]
    omega
  rw [epos, eoff, hq]
  simp [List.append_assoc]

theorem renderRecord_length_pos (rec : MGFRecordSrc) : 0 < (renderRecord rec).length := by
  simp [renderRecord, lineChars, show "BEGIN IONS".length = 10 from rfl]

theorem read_next_record (D : List Char) (rec : MGFRecordSrc) (hrec : recordOk rec = true)
    (P : Nat) (rest : List Char) (hdrop : D.drop P = renderRecord rec ++ rest)
    (st : MGFParserState)
    (hst : st = MGFParserState.Start ∨ st = MGFParserState.Between)
    (o : Nat) (er : MGFError) (idx : OffsetIndex) :
    read_next ⟨⟨D, none, P⟩, st, o, er, idx⟩ =
      PRes.ok
        ⟨⟨D, none, P + (renderRecord rec).length⟩, MGFParserState.Between, o, er, idx⟩
        (some (recSpec rec)) := by
  unfold read_next read_into
  rw [decode_record D rec hrec P rest hdrop st hst o er idx
    new_scan.description new_scan.peaks 0]
  dsimp only
  have hpos : 0 < 0 + (renderRecord rec).length := by
    have := renderRecord_length_pos rec
    omega
  rw [if_pos hpos]
  simp [recSpec, new_scan, defaultDescription]

theorem readSeq_render (recs : List MGFRecordSrc) :
    ∀ (hwfr : recs.all recordOk = true) (D : List Char) (P : Nat)
      (hdrop : D.drop P = renderFile recs)
      (st : MGFParserState)
      (hst : st = MGFParserState.Start ∨ st = MGFParserState.Between)
      (o : Nat) (er : MGFError) (idx : OffsetIndex) (n : Nat) (hn : recs.length < n),
    readSeq ⟨⟨D, none, P⟩, st, o, er, idx⟩ n =
      PRes.ok
        ⟨⟨D, none, P + (renderFile recs).length⟩, MGFParserState.Done, o, er, idx⟩
        (recs.map recSpec) := by
  induction recs with
  | nil =>
    intro hwfr D P hdrop st hst o er idx n hn
    cases n with
    | zero => omega
    | succ m =>
      have heof : read_next ⟨⟨D, none, P⟩, st, o, er, idx⟩ =
          PRes.ok ⟨⟨D, none, P⟩, MGFParserState.Done, o, er, idx⟩ none := by
        unfold read_next read_into
        rw [read_into_loop_eof2 D P (by simpa [renderFile] using hdrop) st o er idx _ _ 0]
        rfl
      simp only [readSeq]
      rw [heof]
      simp [renderFile]
  | cons rec recs ih =>
    intro hwfr D P hdrop st hst o er idx n hn
    rw [List.all_cons, Bool.and_eq_true] at hwfr
    obtain ⟨hrec, hrest⟩ := hwfr
    cases n with
    | zero => omega
    | succ m =>
      have hdrop1 : D.drop P = renderRecord rec ++ renderFile recs := by
        simpa [renderFile] using hdrop
      have hnext := read_next_record D rec hrec P (renderFile recs) hdrop1 st hst o er idx
      simp only [readSeq]
      rw [hnext]
      dsimp only
      have hdrop2 : D.drop (P + (renderRecord rec).length) = renderFile recs :=
        drop_advance D _ (renderRecord rec) P _ hdrop1 rfl
      rw [ih hrest D _ hdrop2 MGFParserState.Between (Or.inr rfl) o er idx m
        (by simp only [List.length_cons] at hn; omega)]
      have e1 : P + (renderRecord rec).length + (renderFile recs).length =
          P + (renderFile (rec :: recs)).length := by
        simp [renderFile]
        omega
      rw [e1]
      simp

theorem build_index_loop_step2 (D rest : List Char) (P : Nat) (s : String)
    (hdrop : D.drop P = s.data ++ '\n' :: rest) (hnl : '\n' ∉ s.data)
    (st : MGFParserState) (o : Nat) (er : MGFError) (idx : OffsetIndex)
    (off last : Nat) (found : Bool) :
    build_index_loop ⟨⟨D, none, P⟩, st, o, er, idx⟩ off last found =
      (if strStartsWith (String.mk (s.data ++ ['\n'])) "BEGIN IONS" then
        build_index_loop ⟨⟨D, none, P + (s.length + 1)⟩, st, o, er, idx⟩
          (off + (s.length + 1)) off true
      else if found && strStartsWith (String.mk (s.data ++ ['\n'])) "TITLE=" then
        build_index_loop
          ⟨⟨D, none, P + (s.length + 1)⟩, st, o, er,
            idx.insert (strDrop (String.mk (s.data ++ ['\n'])) 6) last⟩
          (off + (s.length + 1)) 0 false
      else
        build_index_loop ⟨⟨D, none, P + (s.length + 1)⟩, st, o, er, idx⟩
          (off + (s.length + 1)) last found) := by
  conv_lhs => rw [build_index_loop]
  dsimp only
  rw [hdrop, takeLine_line s.data rest hnl]
  have hb : (String.mk (s.data ++ ['\n'])).length ≠ 0 := by
    simp [length_mk]
  rw [dif_neg hb]
  have hblen : (String.mk (s.data ++ ['\n'])).length = s.length + 1 := by
    simp [length_mk]
  rw [hblen]
  rfl

theorem build_index_loop_eof2 (D : List Char) (P : Nat) (hdrop : D.drop P = [])
    (st : MGFParserState) (o : Nat) (er : MGFError) (idx : OffsetIndex)
    (off last : Nat) (found : Bool) :
    build_index_loop ⟨⟨D, none, P⟩, st, o, er, idx⟩ off last found =
      PRes.ok ⟨⟨D, none, P⟩, st, o, er, idx⟩ off := by
  conv_lhs => rw [build_index_loop]
  dsimp only
  rw [hdrop]
  rfl

theorem isPrefixOf_append_nl (pfx s : List Char) (hnl : '\n' ∉ pfx) :
    pfx.isPrefixOf (s ++ ['\n']) = pfx.isPrefixOf s := by
  induction pfx generalizing s with
  | nil => simp
  | cons a p ih =>
    cases s with
    | nil =>
      have ha : a ≠ '\n' := fun hq => hnl (hq ▸ List.mem_cons_self a p)
      have ha' : (a == '\n') = false := beq_eq_false_iff_ne.mpr ha
      simp [List.isPrefixOf, ha']
    | cons b s' =>
      have ih' := ih s' (fun hm => hnl (List.mem_cons_of_mem a hm))
      simp [List.isPrefixOf, ih']

theorem digit_line_no_begin (s : String) (c : Char) (cs : List Char)
    (hdata : s.data = c :: cs) (hc : charIsNumeric c = true) :
    strStartsWith s "BEGIN IONS" = false := by
  unfold strStartsWith
  rw [hdata]
  have hb : ('B' == c) = false := by
    rw [beq_eq_false_iff_ne]
    intro hq
    rw [← hq] at hc
    exact absurd hc (by decide)
  simp [List.isPrefixOf, hb]

theorem bi_skip (D : List Char) (ls : List String) :
    ∀ (hok : ∀ l ∈ ls, lineClean l = true ∧ strStartsWith l "BEGIN IONS" = false)
      (tail : List Char) (P : Nat)
      (hdrop : D.drop P = (ls.map lineChars).join ++ tail)
      (st : MGFParserState) (o : Nat) (er : MGFError) (idx : OffsetIndex) (last : Nat),
    build_index_loop ⟨⟨D, none, P⟩, st, o, er, idx⟩ P last false =
      build_index_loop
        ⟨⟨D, none, P + ((ls.map lineChars).join).length⟩, st, o, er, idx⟩
        (P + ((ls.map lineChars).join).length) last false := by
  induction ls with
  | nil =>
    intro hok tail P hdrop st o er idx last
    simp
  | cons l ls ih =>
    intro hok tail P hdrop st o er idx last
    obtain ⟨hclean, hnb⟩ := hok l (List.mem_cons_self l ls)
    obtain ⟨htrim, hne, hnl⟩ := lineClean_spec l hclean
    have hdrop1 : D.drop P = l.data ++ '\n' :: ((ls.map lineChars).join ++ tail) := by
      simpa [lineChars, List.append_assoc] using hdrop
    rw [build_index_loop_step2 D _ P l hdrop1 hnl st o er idx P last false]
    have hb : strStartsWith (String.mk (l.data ++ ['\n'])) "BEGIN IONS" = false := by
      unfold strStartsWith
      rw [isPrefixOf_append_nl _ _ (by decide)]
      exact hnb
    rw [hb]
    simp only [Bool.false_eq_true, if_false, Bool.false_and]
    have hdrop2 : D.drop (P + (l.length + 1)) = (ls.map lineChars).join ++ tail := by
      refine drop_advance D _ (l.data ++ ['\n']) P _ ?_ ?_
      · simpa [List.append_assoc] using hdrop1
      · simp
    rw [ih (fun x hx => hok x (List.mem_cons_of_mem l hx)) tail (P + (l.length + 1))
      hdrop2 st o er idx last]
    have e1 : P + (l.length + 1) + ((ls.map lineChars).join).length =
        P + (((l :: ls).map lineChars).join).length := by
      simp [lineChars]
      omega
    rw [e1]

theorem bi_record (D : List Char) (rec : MGFRecordSrc) (hrec : recordOk rec = true)
    (P : Nat) (rest : List Char) (hdrop : D.drop P = renderRecord rec ++ rest)
    (st : MGFParserState) (o : Nat) (er : MGFError) (idx : OffsetIndex) (last : Nat) :
    build_index_loop ⟨⟨D, none, P⟩, st, o, er, idx⟩ P last false =
      build_index_loop
        ⟨⟨D, none, P + (renderRecord rec).length⟩, st, o, er,
          idx.insert (rec.title ++ "\n") P⟩
        (P + (renderRecord rec).length) 0 false := by
  obtain ⟨htitle, hheaders, hpeaks, hne⟩ := recordOk_spec rec hrec
  have hlayout : D.drop P = "BEGIN IONS".data ++ '\n' ::
      (("TITLE=" ++ rec.title).data ++ '\n' ::
        (((rec.headers ++ rec.peakLines ++ ["END IONS"]).map lineChars).join ++ rest)) := by
    rw [hdrop]
    simp [renderRecord, lineChars, List.append_assoc]
  rw [build_index_loop_step2 D _ P "BEGIN IONS" hlayout (by decide) st o er idx P last false]
  rw [show strStartsWith (String.mk ("BEGIN IONS".data ++ ['\n'])) "BEGIN IONS" = true from
    by decide]
  simp only [if_true]
  have hdrop2 : D.drop (P + ("BEGIN IONS".length + 1)) =
      ("TITLE=" ++ rec.title).data ++ '\n' ::
        (((rec.headers ++ rec.peakLines ++ ["END IONS"]).map lineChars).join ++ rest) := by
    refine drop_advance D _ ("BEGIN IONS".data ++ ['\n']) P _ ?_ ?_
    · simpa [List.append_assoc] using hlayout
    · simp +decide
  have hnlT : '\n' ∉ ("TITLE=" ++ rec.title).data := by
    rw [String.data_append]
    intro hm
    rcases List.mem_append.mp hm with hm | hm
    · simp at hm
    · unfold titleOk at htitle
      simp only [Bool.and_eq_true, Bool.not_eq_true'] at htitle
      have hmem := List.elem_eq_true_of_mem hm
      have h1e : List.elem '\n' rec.title.data = false := htitle.1
      rw [hmem] at h1e
      cases h1e
  rw [build_index_loop_step2 D _ _ ("TITLE=" ++ rec.title) hdrop2 hnlT st o er idx _ P true]
  have hT1 : strStartsWith (String.mk (("TITLE=" ++ rec.title).data ++ ['\n']))
      "BEGIN IONS" = false := by
    unfold strStartsWith
    rw [isPrefixOf_append_nl _ _ (by decide), String.data_append]
    simp +decide [List.isPrefixOf]
  have hT2 : strStartsWith (String.mk (("TITLE=" ++ rec.title).data ++ ['\n']))
      "TITLE=" = true := by
    unfold strStartsWith
    rw [String.data_append]
    simp +decide [List.isPrefixOf, List.append_assoc]
  rw [hT1]
  simp only [Bool.false_eq_true, if_false]
  rw [hT2]
  simp only [Bool.true_and, if_true]
  have hkey : strDrop (String.mk (("TITLE=" ++ rec.title).data ++ ['\n'])) 6 =
      rec.title ++ "\n" := by
    unfold strDrop
    rw [String.data_append, List.append_assoc]
    rw [show (6 : Nat) = ("TITLE=".data).length from rfl, List.drop_left]
    rfl
  rw [hkey]
  have hskipok : ∀ l ∈ rec.headers ++ rec.peakLines ++ ["END IONS"],
      lineClean l = true ∧ strStartsWith l "BEGIN IONS" = false := by
    intro l hl
    rcases List.mem_append.mp hl with hl1 | hl2
    · rcases List.mem_append.mp hl1 with hlh | hlp
      · have hok := List.all_eq_true.mp hheaders l hlh
        obtain ⟨hc1, _, _, _, _, hc6, _⟩ := headerOk_spec l hok
        exact ⟨hc1, hc6⟩
      · have hok := List.all_eq_true.mp hpeaks l hlp
        obtain ⟨hc1, ⟨c, cs, hdata, hcnum⟩, _, _, _⟩ := peakLineOk_spec l hok
        exact ⟨hc1, digit_line_no_begin l c cs hdata hcnum⟩
    · have : l = "END IONS" := by simpa using hl2
      subst this
      exact ⟨by decide, by decide⟩
  have hdrop3 : D.drop (P + ("BEGIN IONS".length + 1) + (("TITLE=" ++ rec.title).length + 1)) =
      ((rec.headers ++ rec.peakLines ++ ["END IONS"]).map lineChars).join ++ rest := by
    refine drop_advance D _ (("TITLE=" ++ rec.title).data ++ ['\n']) _ _ ?_ ?_
    · simpa [List.append_assoc] using hdrop2
    · simp [show "TITLE=".length = 6 from rfl]
      omega
  rw [bi_skip D _ hskipok rest _ hdrop3 st o er _ 0]
  have e1 : P + ("BEGIN IONS".length + 1) + (("TITLE=" ++ rec.title).length + 1) +
      (((rec.headers ++ rec.peakLines ++ ["END IONS"]).map lineChars).join).length =
      P + (renderRecord rec).length := by
    simp [renderRecord, lineChars, show "BEGIN IONS".length = 10 from rfl,
      show "TITLE=".length = 6 from rfl, show "END IONS".length = 8 from rfl]
    omega
  rw [e1]

theorem bi_file (D : List Char) (recs : List MGFRecordSrc) :
    ∀ (hwfr : recs.all recordOk = true) (P : Nat)
      (hdrop : D.drop P = renderFile recs)
      (st : MGFParserState) (o : Nat) (er : MGFError) (idx : OffsetIndex) (last : Nat),
    build_index_loop ⟨⟨D, none, P⟩, st, o, er, idx⟩ P last false =
      PRes.ok ⟨⟨D, none, P + (renderFile recs).length⟩, st, o, er, foldIdx idx P recs⟩
        (P + (renderFile recs).length) := by
  induction recs with
  | nil =>
    intro hwfr P hdrop st o er idx last
    rw [build_index_loop_eof2 D P (by simpa [renderFile] using hdrop) st o er idx P last false]
    simp [renderFile, foldIdx]
  | cons rec recs ih =>
    intro hwfr P hdrop st o er idx last
    rw [List.all_cons, Bool.and_eq_true] at hwfr
    obtain ⟨hrec, hrest⟩ := hwfr
    have hdrop1 : D.drop P = renderRecord rec ++ renderFile recs := by
      simpa [renderFile] using hdrop
    rw [bi_record D rec hrec P _ hdrop1 st o er idx last]
    have hdrop2 : D.drop (P + (renderRecord rec).length) = renderFile recs :=
      drop_advance D _ (renderRecord rec) P _ hdrop1 rfl
    rw [ih hrest (P + (renderRecord rec).length) hdrop2 st o er
      (idx.insert (rec.title ++ "\n") P) 0]
    have e1 : P + (renderRecord rec).length + (renderFile recs).length =
        P + (renderFile (rec :: recs)).length := by
      simp [renderFile]
      omega
    rw [e1]
    rfl

theorem build_index_render (recs : List MGFRecordSrc) (hwfr : recs.all recordOk = true)
    (P0 : Nat) (st : MGFParserState) (o : Nat) (er : MGFError) (idx : OffsetIndex) :
    build_index ⟨⟨renderFile recs, none, P0⟩, st, o, er, idx⟩ =
      PRes.ok
        ⟨⟨renderFile recs, none, P0⟩, st, o, er,
          { foldIdx idx 0 recs with init := true }⟩
        (renderFile recs).length := by
  unfold build_index
  dsimp only
  rw [show hseek (⟨renderFile recs, none, P0⟩ : Handle) 0 =
    (⟨renderFile recs, none, 0⟩ : Handle) from rfl]
  rw [bi_file (renderFile recs) recs hwfr 0 (by simp) st o er idx 0]
  dsimp only
  rw [Nat.zero_add]
  rfl

theorem insertEntry_fresh (es : List (String × Nat)) (k : String) (off : Nat)
    (hfresh : ∀ e ∈ es, e.1 ≠ k) : insertEntry es k off = es ++ [(k, off)] := by
  induction es with
  | nil => rfl
  | cons e es ih =>
    have h1 : e.1 ≠ k := hfresh e (List.mem_cons_self e es)
    simp [insertEntry, h1, ih (fun x hx => hfresh x (List.mem_cons_of_mem e hx))]

theorem append_nl_inj (a b : String) (h : a ++ "\n" = b ++ "\n") : a = b := by
  have hd := congrArg String.data h
  rw [String.data_append, String.data_append] at hd
  have hde : a.data = b.data := List.append_cancel_right hd
  cases a
  cases b
  simp at hde
  rw [hde]

theorem foldIdx_eq (recs : List MGFRecordSrc) :
    ∀ (idx : OffsetIndex) (base : Nat)
      (hfresh : ∀ rec ∈ recs, ∀ e ∈ idx.entries, e.1 ≠ rec.title ++ "\n")
      (hnd : (recs.map (fun r => r.title)).Nodup),
    foldIdx idx base recs =
      ⟨idx.name, idx.entries ++ entriesFor base recs, idx.init⟩ := by
  induction recs with
  | nil =>
    intro idx base hfresh hnd
    simp [foldIdx, entriesFor]
  | cons rec recs ih =>
    intro idx base hfresh hnd
    simp only [foldIdx, entriesFor]
    have hf1 : ∀ e ∈ idx.entries, e.1 ≠ rec.title ++ "\n" :=
      fun e he => hfresh rec (List.mem_cons_self _ _) e he
    have hins : idx.insert (rec.title ++ "\n") base =
        ⟨idx.name, idx.entries ++ [(rec.title ++ "\n", base)], idx.init⟩ := by
      unfold OffsetIndex.insert
      rw [insertEntry_fresh idx.entries _ base hf1]
    rw [hins]
    rw [List.map_cons, List.nodup_cons] at hnd
    obtain ⟨hnotin, hnd'⟩ := hnd
    rw [ih _ _ ?_ hnd']
    · simp
    · intro r2 hr2 e he
      rcases List.mem_append.mp he with he1 | he2
      · exact hfresh r2 (List.mem_cons_of_mem rec hr2) e he1
      · have he2' : e = (rec.title ++ "\n", base) := by simpa using he2
        subst he2'
        intro hq
        apply hnotin
        have : rec.title = r2.title := append_nl_inj _ _ hq
        rw [this]
        exact List.mem_map_of_mem _ hr2

theorem entriesFor_get? (recs : List MGFRecordSrc) :
    ∀ (base i : Nat) (hi : i < recs.length),
    (entriesFor base recs).get? i =
      some ((recs.get ⟨i, hi⟩).title ++ "\n",
        base + (renderFile (recs.take i)).length) := by
  induction recs with
  | nil =>
    intro base i hi
    simp at hi
  | cons rec recs ih =>
    intro base i hi
    cases i with
    | zero => simp [entriesFor, renderFile]
    | succ j =>
      have hj : j < recs.length := by simpa using hi
      simp only [entriesFor, List.get?_cons_succ]
      rw [ih (base + (renderRecord rec).length) j hj]
      have e : base + (renderRecord rec).length + (renderFile (recs.take j)).length =
          base + (renderFile ((rec :: recs).take (j + 1))).length := by
        simp [renderFile, List.take_succ_cons]
        omega
      rw [e]
      rfl

theorem entriesFor_find? (recs : List MGFRecordSrc) :
    ∀ (base : Nat) (hnd : (recs.map (fun r => r.title)).Nodup)
      (i : Nat) (hi : i < recs.length),
    (entriesFor base recs).find?
        (fun e => e.1 == (recs.get ⟨i, hi⟩).title ++ "\n") =
      some ((recs.get ⟨i, hi⟩).title ++ "\n",
        base + (renderFile (recs.take i)).length) := by
  induction recs with
  | nil =>
    intro base hnd i hi
    simp at hi
  | cons rec recs ih =>
    intro base hnd i hi
    rw [List.map_cons, List.nodup_cons] at hnd
    obtain ⟨hnotin, hnd'⟩ := hnd
    cases i with
    | zero =>
      simp [entriesFor, List.find?, renderFile]
    | succ j =>
      have hj : j < recs.length := by simpa using hi
      have hget : (rec :: recs).get ⟨j + 1, hi⟩ = recs.get ⟨j, hj⟩ := rfl
      have htne : rec.title ≠ (recs.get ⟨j, hj⟩).title := by
        intro hq
        apply hnotin
        rw [hq]
        exact List.mem_map_of_mem _ (recs.get_mem _ _)
      have hkne : (rec.title ++ "\n" == (recs.get ⟨j, hj⟩).title ++ "\n") = false := by
        rw [beq_eq_false_iff_ne]
        intro hq
        exact htne (append_nl_inj _ _ hq)
      rw [hget]
      simp only [entriesFor, List.find?]
      rw [hkne]
      rw [ih (base + (renderRecord rec).length) hnd' j hj]
      have e : base + (renderRecord rec).length + (renderFile (recs.take j)).length =
          base + (renderFile ((rec :: recs).take (j + 1))).length := by
        simp [renderFile, List.take_succ_cons]
        omega
      rw [e]

theorem wfInput_spec (recs : List MGFRecordSrc) (h : wfInput recs = true) :
    recs.all recordOk = true ∧ (recs.map (fun r => r.title)).Nodup := by
  unfold wfInput at h
  simp only [Bool.and_eq_true, decide_eq_true_eq] at h
  exact h

theorem new_indexed_render (recs : List MGFRecordSrc) (hwf : wfInput recs = true) :
    new_indexed (mkHandle (renderFile recs)) =
      PRes.ok
        ⟨⟨renderFile recs, none, 0⟩, MGFParserState.Start, 0, MGFError.NoError,
          ⟨"spectrum", entriesFor 0 recs, true⟩⟩ () := by
  obtain ⟨hwfr, hnd⟩ := wfInput_spec recs hwf
  unfold new_indexed MGFReader.new mkHandle
  rw [build_index_render recs hwfr 0 MGFParserState.Start 0 MGFError.NoError
    (OffsetIndex.new "spectrum")]
  have hfold : foldIdx (OffsetIndex.new "spectrum") 0 recs =
      ⟨"spectrum", entriesFor 0 recs, false⟩ := by
    rw [foldIdx_eq recs (OffsetIndex.new "spectrum") 0 (by intro rec hr e he; cases he) hnd]
    rfl
  rw [hfold]

theorem renderFile_decomp (recs : List MGFRecordSrc) :
    ∀ (i : Nat) (hi : i < recs.length),
    renderFile recs =
      renderFile (recs.take i) ++
        (renderRecord (recs.get ⟨i, hi⟩) ++ renderFile (recs.drop (i + 1))) := by
  induction recs with
  | nil =>
    intro i hi
    simp at hi
  | cons rec recs ih =>
    intro i hi
    cases i with
    | zero => simp [renderFile]
    | succ j =>
      have hj : j < recs.length := by simpa using hi
      have := ih j hj
      simp only [List.take_succ_cons, List.drop_succ_cons]
      show renderFile (rec :: recs) =
        renderFile (rec :: recs.take j) ++
          (renderRecord ((rec :: recs).get ⟨j + 1, hi⟩) ++ renderFile (recs.drop (j + 1)))
      have hget : (rec :: recs).get ⟨j + 1, hi⟩ = recs.get ⟨j, hj⟩ := rfl
      rw [hget]
      have h1 : renderFile (rec :: recs) = renderRecord rec ++ renderFile recs := by
        simp [renderFile]
      have h2 : renderFile (rec :: recs.take j) = renderRecord rec ++ renderFile (recs.take j) := by
        simp [renderFile]
      rw [h1, h2, this]
      simp [List.append_assoc]

theorem by_index_correct (recs : List MGFRecordSrc) (hwf : wfInput recs = true)
    (i : Nat) (hi : i < recs.length)
    (P : Nat) (st : MGFParserState)
    (hst : st = MGFParserState.Start ∨ st = MGFParserState.Between)
    (o : Nat) (er : MGFError) :
    get_spectrum_by_index
        ⟨⟨renderFile recs, none, P⟩, st, o, er, ⟨"spectrum", entriesFor 0 recs, true⟩⟩ i =
      PRes.ok
        ⟨⟨renderFile recs, none, P⟩, MGFParserState.Between, o, er,
          ⟨"spectrum", entriesFor 0 recs, true⟩⟩
        (some (recSpec (recs.get ⟨i, hi⟩))) := by
  obtain ⟨hwfr, hnd⟩ := wfInput_spec recs hwf
  unfold get_spectrum_by_index OffsetIndex.get_index
  dsimp only
  rw [entriesFor_get? recs 0 i hi]
  dsimp only [hseek]
  have hdrop : (renderFile recs).drop (0 + (renderFile (recs.take i)).length) =
      renderRecord (recs.get ⟨i, hi⟩) ++ renderFile (recs.drop (i + 1)) := by
    rw [Nat.zero_add]
    conv_lhs => rw [renderFile_decomp recs i hi]
    rw [List.drop_left]
  have hrec : recordOk (recs.get ⟨i, hi⟩) = true :=
    List.all_eq_true.mp hwfr _ (recs.get_mem _ _)
  rw [read_next_record (renderFile recs) _ hrec _ _ hdrop st hst o er
    ⟨"spectrum", entriesFor 0 recs, true⟩]

theorem by_id_correct (recs : List MGFRecordSrc) (hwf : wfInput recs = true)
    (i : Nat) (hi : i < recs.length)
    (P : Nat) (st : MGFParserState)
    (hst : st = MGFParserState.Start ∨ st = MGFParserState.Between)
    (o : Nat) (er : MGFError) :
    get_spectrum_by_id
        ⟨⟨renderFile recs, none, P⟩, st, o, er, ⟨"spectrum", entriesFor 0 recs, true⟩⟩
        ((recs.get ⟨i, hi⟩).title ++ "\n") =
      PRes.ok
        ⟨⟨renderFile recs, none, P⟩, MGFParserState.Between, o, er,
          ⟨"spectrum", entriesFor 0 recs, true⟩⟩
        (some (recSpec (recs.get ⟨i, hi⟩))) := by
  obtain ⟨hwfr, hnd⟩ := wfInput_spec recs hwf
  unfold get_spectrum_by_id OffsetIndex.get
  dsimp only
  rw [entriesFor_find? recs 0 hnd i hi]
  simp only [Option.map_some']
  dsimp only [hseek]
  have hdrop : (renderFile recs).drop (0 + (renderFile (recs.take i)).length) =
      renderRecord (recs.get ⟨i, hi⟩) ++ renderFile (recs.drop (i + 1)) := by
    rw [Nat.zero_add]
    conv_lhs => rw [renderFile_decomp recs i hi]
    rw [List.drop_left]
  have hrec : recordOk (recs.get ⟨i, hi⟩) = true :=
    List.all_eq_true.mp hwfr _ (recs.get_mem _ _)
  rw [read_next_record (renderFile recs) _ hrec _ _ hdrop st hst o er
    ⟨"spectrum", entriesFor 0 recs, true⟩]

theorem recs_find?_id (recs : List MGFRecordSrc) :
    ∀ (hnd : (recs.map (fun r => r.title)).Nodup) (i : Nat) (hi : i < recs.length),
    recs.find? (fun rec => rec.title ++ "\n" == (recs.get ⟨i, hi⟩).title ++ "\n") =
      some (recs.get ⟨i, hi⟩) := by
  induction recs with
  | nil =>
    intro hnd i hi
    simp at hi
  | cons rec recs ih =>
    intro hnd i hi
    rw [List.map_cons, List.nodup_cons] at hnd
    obtain ⟨hnotin, hnd'⟩ := hnd
    cases i with
    | zero => simp [List.find?]
    | succ j =>
      have hj : j < recs.length := by simpa using hi
      have hget : (rec :: recs).get ⟨j + 1, hi⟩ = recs.get ⟨j, hj⟩ := rfl
      rw [hget]
      have htne : rec.title ≠ (recs.get ⟨j, hj⟩).title := by
        intro hq
        apply hnotin
        rw [hq]
        exact List.mem_map_of_mem _ (recs.get_mem _ _)
      have hkne : (rec.title ++ "\n" == (recs.get ⟨j, hj⟩).title ++ "\n") = false := by
        rw [beq_eq_false_iff_ne]
        intro hq
        exact htne (append_nl_inj _ _ hq)
      simp only [List.find?]
      rw [hkne]
      exact ih hnd' j hj

theorem valid_id_index (recs : List MGFRecordSrc) (id : String)
    (hvalid : recs.any (fun rec => rec.title ++ "\n" == id) = true) :
    ∃ (i : Nat) (hi : i < recs.length), (recs.get ⟨i, hi⟩).title ++ "\n" = id := by
  rw [List.any_eq_true] at hvalid
  obtain ⟨rec, hmem, hkey⟩ := hvalid
  rw [List.mem_iff_get] at hmem
  obtain ⟨⟨i, hi⟩, hget⟩ := hmem
  refine ⟨i, hi, ?_⟩
  rw [hget]
  exact beq_iff_eq.mp hkey

theorem runQueries_correct (recs : List MGFRecordSrc) (hwf : wfInput recs = true)
    (qs : List MgfQuery) :
    ∀ (hq : ∀ q ∈ qs, queryValid recs q = true)
      (P : Nat) (st : MGFParserState)
      (hst : st = MGFParserState.Start ∨ st = MGFParserState.Between)
      (o : Nat) (er : MGFError),
    ∃ st', (st' = MGFParserState.Start ∨ st' = MGFParserState.Between) ∧
      runQueries
          ⟨⟨renderFile recs, none, P⟩, st, o, er,
            ⟨"spectrum", entriesFor 0 recs, true⟩⟩ qs =
        PRes.ok
          ⟨⟨renderFile recs, none, P⟩, st', o, er,
            ⟨"spectrum", entriesFor 0 recs, true⟩⟩
          (qs.map (queryExpected recs)) := by
  induction qs with
  | nil =>
    intro hq P st hst o er
    exact ⟨st, hst, rfl⟩
  | cons q qs ih =>
    intro hq P st hst o er
    have hq1 := hq q (List.mem_cons_self q qs)
    have hqr : ∀ x ∈ qs, queryValid recs x = true :=
      fun x hx => hq x (List.mem_cons_of_mem q hx)
    obtain ⟨st', hst', hrun⟩ := ih hqr P MGFParserState.Between (Or.inr rfl) o er
    cases q with
    | byIndex i =>
      have hi : i < recs.length := by
        simpa [queryValid] using hq1
      simp only [runQueries, runQuery]
      rw [by_index_correct recs hwf i hi P st hst o er]
      dsimp only
      rw [hrun]
      refine ⟨st', hst', ?_⟩
      have he : queryExpected recs (MgfQuery.byIndex i) =
          some (recSpec (recs.get ⟨i, hi⟩)) := by
        show (recs.map recSpec).get? i = some (recSpec (recs.get ⟨i, hi⟩))
        rw [List.get?_map, List.get?_eq_get hi]
        rfl
      simp [he]
    | byId id =>
      have hvalid : recs.any (fun rec => rec.title ++ "\n" == id) = true := by
        simpa [queryValid] using hq1
      obtain ⟨i, hi, hid⟩ := valid_id_index recs id hvalid
      simp only [runQueries, runQuery]
      rw [← hid]
      rw [by_id_correct recs hwf i hi P st hst o er]
      dsimp only
      rw [hrun]
      refine ⟨st', hst', ?_⟩
      have he : queryExpected recs (MgfQuery.byId ((recs.get ⟨i, hi⟩).title ++ "\n")) =
          some (recSpec (recs.get ⟨i, hi⟩)) := by
        obtain ⟨hwfr, hnd⟩ := wfInput_spec recs hwf
        show (recs.find? (fun rec => rec.title ++ "\n" ==
            (recs.get ⟨i, hi⟩).title ++ "\n")).map recSpec =
          some (recSpec (recs.get ⟨i, hi⟩))
        rw [recs_find?_id recs hnd i hi]
        rfl
      simp only [List.map_cons]
      rw [he]

/-! ## Claim theorems -/

/-- C1 (amended): for a well-formed MGF input whose records each contain at
least one peak and have distinct TITLE values, building the index succeeds,
plain sequential iteration decodes exactly the rendered records, and any
sequence of valid random-access queries — by position, or by identifier as
stored in the index (the TITLE value including its trailing line terminator)
— returns, in any order, exactly the records that sequential iteration
produces: by-index answers are the entries of the sequential result list and
by-id answers are the sequentially decoded record bearing the queried key. -/
theorem c1_index_query_equivalence (recs : List MGFRecordSrc) (qs : List MgfQuery)
    (hwf : wfInput recs = true) (hq : ∀ q ∈ qs, queryValid recs q = true) :
    c1Statement recs qs := by
  obtain ⟨hwfr, hnd⟩ := wfInput_spec recs hwf
  obtain ⟨st', hst', hrun⟩ := runQueries_correct recs hwf qs hq 0
    MGFParserState.Start (Or.inl rfl) 0 MGFError.NoError
  have hseq := readSeq_render recs hwfr (renderFile recs) 0 (by simp)
    MGFParserState.Start (Or.inl rfl) 0 MGFError.NoError
    (OffsetIndex.new "spectrum") (recs.length + 1) (by omega)
  refine ⟨_, _, _, new_indexed_render recs hwf, hseq, hrun, ?_, ?_⟩
  · intro i
    rfl
  · intro id rec hfind
    show (recs.find? (fun x => x.title ++ "\n" == id)).map recSpec = some (recSpec rec)
    rw [hfind]
    rfl

theorem by_id_pos (r r' : MGFReader) (id : String) (res : Option CentroidSpectrum)
    (h : get_spectrum_by_id r id = PRes.ok r' res) : r'.handle.pos = r.handle.pos := by
  unfold get_spectrum_by_id at h
  cases hidx : r.index.get id with
  | none =>
    rw [hidx] at h
    cases h
  | some off =>
    rw [hidx] at h
    dsimp only at h
    cases hrn : read_next { r with handle := hseek r.handle off } with
    | panicked rp m =>
      rw [hrn] at h
      cases h
    | ok r2 result =>
      rw [hrn] at h
      dsimp only at h
      cases h
      rfl

theorem by_index_pos (r r' : MGFReader) (i : Nat) (res : Option CentroidSpectrum)
    (h : get_spectrum_by_index r i = PRes.ok r' res) : r'.handle.pos = r.handle.pos := by
  unfold get_spectrum_by_index at h
  cases hidx : r.index.get_index i with
  | none =>
    rw [hidx] at h
    cases h
    rfl
  | some e =>
    rw [hidx] at h
    dsimp only at h
    cases hrn : read_next { r with handle := hseek r.handle e.2 } with
    | panicked rp m =>
      rw [hrn] at h
      cases h
    | ok r2 result =>
      rw [hrn] at h
      dsimp only at h
      cases h
      rfl

/-- C2 (amended): every random-access call that returns restores the
stream's position unconditionally; and for a well-formed input whose records
each contain at least one peak, any sequence of valid random-access queries
additionally leaves subsequent sequential reads unchanged — they yield the
same record sequence as if no random access had occurred. (When a
random-access decode instead runs to the end of the stream, the parser is
left in the `Done` state and subsequent sequential reads differ; see the
counterexample.) -/
theorem c2_position_preservation (recs : List MGFRecordSrc) (qs : List MgfQuery)
    (hwf : wfInput recs = true) (hq : ∀ q ∈ qs, queryValid recs q = true) :
    c2Conclusion recs qs := by
  obtain ⟨hwfr, hnd⟩ := wfInput_spec recs hwf
  refine ⟨fun r r' id res h => by_id_pos r r' id res h,
    fun r r' i res h => by_index_pos r r' i res h, ?_⟩
  obtain ⟨st', hst', hrun⟩ := runQueries_correct recs hwf qs hq 0
    MGFParserState.Start (Or.inl rfl) 0 MGFError.NoError
  have hseq1 := readSeq_render recs hwfr (renderFile recs) 0 (by simp)
    st' hst' 0 MGFError.NoError ⟨"spectrum", entriesFor 0 recs, true⟩
    (recs.length + 1) (by omega)
  have hseq0 := readSeq_render recs hwfr (renderFile recs) 0 (by simp)
    MGFParserState.Start (Or.inl rfl) 0 MGFError.NoError
    ⟨"spectrum", entriesFor 0 recs, true⟩ (recs.length + 1) (by omega)
  exact ⟨_, _, _, _, _, _, new_indexed_render recs hwf, hrun, rfl, hseq1, hseq0⟩

theorem c1_index_query_equivalence_witness : c1Statement recs0 qs0 :=
  c1_index_query_equivalence recs0 qs0 (by decide) (by decide)

theorem c2_position_preservation_witness : c2Conclusion recs0 qs0 :=
  c2_position_preservation recs0 qs0 (by decide) (by decide)

theorem applyHeader_id (h : String) (hok : headerOk h = true) (d : SpectrumDescription) :
    (applyHeader d h).id = d.id := by
  obtain ⟨hclean, _, hne, hcont, hsw1, _, _⟩ := headerOk_spec h hok
  have hkeyne := key_ne_of_not_title h hcont hsw1
  unfold applyHeader
  dsimp only
  rw [if_neg hkeyne]
  by_cases hk1 : strTakeUntilEq h = "RTINSECONDS"
  · rw [if_pos hk1]
    cases hac : d.acquisition <;> simp [setFirstScanStart, hac]
  · rw [if_neg hk1]
    by_cases hk2 : strTakeUntilEq h = "PEPMASS"
    · rw [if_pos hk2]
    · rw [if_neg hk2]

theorem foldl_applyHeader_id (hs : List String) :
    ∀ (d : SpectrumDescription), hs.all headerOk = true →
      (hs.foldl applyHeader d).id = d.id := by
  induction hs with
  | nil =>
    intro d _
    rfl
  | cons h hs ih =>
    intro d hall
    rw [List.all_cons, Bool.and_eq_true] at hall
    rw [List.foldl_cons, ih _ hall.2, applyHeader_id h hall.1 d]

theorem recSpec_id (rec : MGFRecordSrc) (hrec : recordOk rec = true) :
    (recSpec rec).description.id = rec.title := by
  obtain ⟨_, hheaders, _, _⟩ := recordOk_spec rec hrec
  unfold recSpec
  dsimp only
  rw [foldl_applyHeader_id rec.headers _ hheaders]

theorem key_ne_title (t : String) : t ++ "\n" ≠ t := by
  intro hq
  have hl := congrArg String.length hq
  rw [String.length_append] at hl
  have h1 : ("\n" : String).length = 1 := rfl
  rw [h1] at hl
  omega

/-- C9: for every record of a well-formed input, the identifier key that
`build_index` stores is the raw TITLE bytes after the 6-byte `TITLE=`
prefix, including the trailing newline, whereas sequential decoding sets the
record identifier to the trimmed TITLE value; hence the stored key always
differs from the decoded identifier by its trailing newline. -/
theorem c9_index_key_newline (recs : List MGFRecordSrc) (i : Nat)
    (hwf : wfInput recs = true) (hi : i < recs.length) : c9Statement recs i := by
  obtain ⟨hwfr, hnd⟩ := wfInput_spec recs hwf
  have hrec : recordOk (recs.get ⟨i, hi⟩) = true :=
    List.all_eq_true.mp hwfr _ (recs.get_mem _ _)
  have hseq := readSeq_render recs hwfr (renderFile recs) 0 (by simp)
    MGFParserState.Start (Or.inl rfl) 0 MGFError.NoError
    (OffsetIndex.new "spectrum") (recs.length + 1) (by omega)
  refine ⟨_, recs.get ⟨i, hi⟩, (recs.get ⟨i, hi⟩).title ++ "\n",
    0 + (renderFile (recs.take i)).length, _, List.get?_eq_get hi,
    new_indexed_render recs hwf, entriesFor_get? recs 0 i hi, rfl, hseq,
    recSpec_id _ hrec, ?_⟩
  rw [recSpec_id _ hrec]
  exact key_ne_title _

theorem c9_index_key_newline_witness : c9Statement recs0 0 :=
  c9_index_key_newline recs0 0 (by decide) (by decide)

theorem ppl_digit_branch (st : MGFParserState) (er : MGFError) (line : String)
    (c : Char) (cs : List Char) (hline : line.data = c :: cs)
    (hc : charIsNumeric c = true) :
    (∃ st' er' m, parse_peak_from_line st er line = PPOut.panicked st' er' m) ∨
    (∃ st' er' pk, parse_peak_from_line st er line = PPOut.ok st' er' (some pk)) := by
  unfold parse_peak_from_line
  rw [hline]
  simp only [hc, if_true]
  cases hp0 : parseF64 (((peakSeparatorSplit line).get? 0).getD "") with
  | none => exact Or.inl ⟨_, _, _, rfl⟩
  | some mz =>
    dsimp only
    cases hp1 : (peakSeparatorSplit line).get? 1 with
    | none => exact Or.inl ⟨_, _, _, rfl⟩
    | some p1 =>
      dsimp only
      cases hp2 : parseF32 p1 with
      | none => exact Or.inl ⟨_, _, _, rfl⟩
      | some inten => exact Or.inr ⟨_, _, _, rfl⟩

/-- C8: in the `ScanHeaders` state the peak-line test runs before the
`=`-header test: for every line whose first character is numeric — including
a `KEY=VALUE` header whose key starts with a digit — `handle_scan_header`
takes the peak branch (appending a peak and moving to `Peaks`, or panicking
inside the peak parser); the `=`-header branch is never taken, so the
description and its annotation map are untouched. -/
theorem c8_digit_first_peak_branch (st : MGFParserState) (er : MGFError)
    (line : String) (d : SpectrumDescription) (p : PeakSet)
    (c : Char) (cs : List Char) (hline : line.data = c :: cs)
    (hc : charIsNumeric c = true) :
    (∃ st' er' m, handle_scan_header st er line d p = HOut.panicked st' er' m) ∨
    (∃ er' pk, handle_scan_header st er line d p =
        HOut.ok MGFParserState.Peaks er' true d (p ++ [pk])) := by
  rcases ppl_digit_branch st er line c cs hline hc with
    ⟨st', er', m, hpp⟩ | ⟨st', er', pk, hpp⟩
  · exact Or.inl ⟨st', er', m, by rw [handle_scan_header, hpp]⟩
  · exact Or.inr ⟨er', pk, by rw [handle_scan_header, hpp]⟩

theorem c8_digit_first_peak_branch_witness :
    (∃ st' er' m, handle_scan_header MGFParserState.ScanHeaders MGFError.NoError
        "100 200" defaultDescription [] = HOut.panicked st' er' m) ∨
    (∃ er' pk, handle_scan_header MGFParserState.ScanHeaders MGFError.NoError
        "100 200" defaultDescription [] =
          HOut.ok MGFParserState.Peaks er' true defaultDescription ([] ++ [pk])) :=
  c8_digit_first_peak_branch MGFParserState.ScanHeaders MGFError.NoError
    "100 200" defaultDescription [] '1' "00 200".data rfl (by decide)

/-- C4: a digit-first line with fewer than two separated fields does set the
state to `Error` and the fault to `TooManyColumnsForPeakLine`, but the loop
never observes them: `parse_peak_from_line` then panics on the out-of-bounds
access to the second field, aborting the process.  Shown at the failing
input `"42"`. -/
theorem c4_short_peak_line_panic :
    parse_peak_from_line MGFParserState.ScanHeaders MGFError.NoError "42" =
      PPOut.panicked MGFParserState.Error MGFError.TooManyColumnsForPeakLine
        "index out of bounds" := by
  decide

/-- C6: in the `ScanHeaders` state the header `PEPMASS=500.5 1000.0 2` sets
the precursor selected ion to m/z 500.5, intensity 1000 and charge 2, and
`PEPMASS=500.5 1000.0` sets the same m/z and intensity with the charge
absent. -/
theorem c6_pepmass_charge :
    handle_scan_header MGFParserState.ScanHeaders MGFError.NoError
        "PEPMASS=500.5 1000.0 2" defaultDescription [] =
      HOut.ok MGFParserState.ScanHeaders MGFError.NoError true
        { defaultDescription with
            precursor := some
              { ion := { mz := 1001/2, intensity := 1000, charge := some 2 } } }
        [] ∧
    handle_scan_header MGFParserState.ScanHeaders MGFError.NoError
        "PEPMASS=500.5 1000.0" defaultDescription [] =
      HOut.ok MGFParserState.ScanHeaders MGFError.NoError true
        { defaultDescription with
            precursor := some
              { ion := { mz := 1001/2, intensity := 1000, charge := none } } }
        [] := by
  have e1 : natOfDigits ['5', '0', '0'] = 500 := rfl
  have e2 : natOfDigits ['5'] = 5 := rfl
  have e3 : natOfDigits ['1', '0', '0', '0'] = 1000 := rfl
  have e4 : natOfDigits ['0'] = 0 := rfl
  have hmz : (parseF64 "500.5").getD 0 = (1001/2 : ℚ) := by
    show ((natOfDigits ['5', '0', '0'] : ℚ) +
      (natOfDigits ['5'] : ℚ) / ((10 : ℚ) ^ (['5'].length))) = 1001/2
    rw [e1, e2]
    norm_num
  have hint : (parseF32 "1000.0").getD 0 = (1000 : ℚ) := by
    show ((natOfDigits ['1', '0', '0', '0'] : ℚ) +
      (natOfDigits ['0'] : ℚ) / ((10 : ℚ) ^ (['0'].length))) = 1000
    rw [e3, e4]
    norm_num
  have hch : (parseI32 "2").getD 0 = (2 : Int) := rfl
  have happ1 : applyHeader defaultDescription "PEPMASS=500.5 1000.0 2" =
      { defaultDescription with
          precursor := some { ion := {
            mz := (parseF64 "500.5").getD 0,
            intensity := (parseF32 "1000.0").getD 0,
            charge := some ((parseI32 "2").getD 0) } } } := rfl
  have happ2 : applyHeader defaultDescription "PEPMASS=500.5 1000.0" =
      { defaultDescription with
          precursor := some { ion := {
            mz := (parseF64 "500.5").getD 0,
            intensity := (parseF32 "1000.0").getD 0,
            charge := none } } } := rfl
  constructor
  · rw [hsh_header MGFError.NoError _ defaultDescription [] (by decide),
      happ1, hmz, hint, hch]
  · rw [hsh_header MGFError.NoError _ defaultDescription [] (by decide),
      happ2, hmz, hint]

/-- C3: when the queried identifier is absent from the offset index,
`get_spectrum_by_id` does not return a recoverable `ScanNotFound`-style
result: the `expect` on the lookup panics with "Failed to retrieve offset",
aborting the process. -/
theorem c3_absent_id_panics (r : MGFReader) (id : String)
    (h : r.index.get id = none) :
    get_spectrum_by_id r id = PRes.panicked r "Failed to retrieve offset" := by
  unfold get_spectrum_by_id
  rw [h]

theorem c3_absent_id_panics_witness :
    OffsetIndex.get ⟨"spectrum", entriesFor 0 recs0, true⟩ "C" = none ∧
    get_spectrum_by_id
        ⟨⟨renderFile recs0, none, 0⟩, MGFParserState.Start, 0, MGFError.NoError,
          ⟨"spectrum", entriesFor 0 recs0, true⟩⟩ "C" =
      PRes.panicked
        ⟨⟨renderFile recs0, none, 0⟩, MGFParserState.Start, 0, MGFError.NoError,
          ⟨"spectrum", entriesFor 0 recs0, true⟩⟩ "Failed to retrieve offset" :=
  ⟨by decide, c3_absent_id_panics _ "C" (by decide)⟩

/-- C7: on a zero-byte input the first decode call consumes zero bytes with
no fault and leaves the parser in `Done`, sequential iteration yields zero
records, and `build_index` completes without error with the index marked
initialized and holding zero entries. -/
theorem c7_empty_stream :
    read_next (MGFReader.new (mkHandle [])) =
      PRes.ok ⟨⟨[], none, 0⟩, MGFParserState.Done, 0, MGFError.NoError,
        OffsetIndex.new "spectrum"⟩ none ∧
    readSeq (MGFReader.new (mkHandle [])) 1 =
      PRes.ok ⟨⟨[], none, 0⟩, MGFParserState.Done, 0, MGFError.NoError,
        OffsetIndex.new "spectrum"⟩ [] ∧
    build_index (MGFReader.new (mkHandle [])) =
      PRes.ok ⟨⟨[], none, 0⟩, MGFParserState.Start, 0, MGFError.NoError,
        ⟨"spectrum", [], true⟩⟩ 0 ∧
    OffsetIndex.len ⟨"spectrum", [], true⟩ = 0 := by
  have hnext : read_next (MGFReader.new (mkHandle [])) =
      PRes.ok ⟨⟨[], none, 0⟩, MGFParserState.Done, 0, MGFError.NoError,
        OffsetIndex.new "spectrum"⟩ none := by
    unfold read_next read_into MGFReader.new mkHandle
    rw [read_into_loop_eof2 [] 0 rfl MGFParserState.Start 0 MGFError.NoError
      (OffsetIndex.new "spectrum") _ _ 0]
    rfl
  refine ⟨hnext, ?_, ?_, rfl⟩
  · show readSeq _ (0 + 1) = _
    rw [readSeq]
    rw [hnext]
  · unfold build_index MGFReader.new mkHandle hseek
    dsimp only
    rw [build_index_loop_eof2 [] 0 rfl MGFParserState.Start 0 MGFError.NoError
      (OffsetIndex.new "spectrum") 0 0 false]
    rfl

/-- C10: `read_next` maps both a zero-byte successful decode (end of input)
and an error result of the decode call (e.g. an IO read failure, which is
printed and discarded) to `none`, so at the iterator interface an IO fault
is indistinguishable from normal end of input. -/
theorem c10_error_eof_indistinguishable (r r' : MGFReader)
    (sp : CentroidSpectrum) (res : Except MGFError Nat)
    (h : read_into r new_scan = PRes.ok r' (res, sp))
    (hres : res = Except.ok 0 ∨ ∃ e, res = Except.error e) :
    read_next r = PRes.ok r' none := by
  unfold read_next
  rw [h]
  rcases hres with he | ⟨e, he⟩ <;> subst he
  · simp
  · rfl

theorem c10_error_eof_indistinguishable_witness :
    read_next ⟨⟨[], some 0, 0⟩, MGFParserState.Start, 0, MGFError.NoError,
        OffsetIndex.new "spectrum"⟩ =
      PRes.ok ⟨⟨[], some 0, 0⟩, MGFParserState.Error, 0, MGFError.IOError,
        OffsetIndex.new "spectrum"⟩ none :=
  c10_error_eof_indistinguishable _ _ new_scan (Except.error MGFError.IOError)
    (by unfold read_into
        rw [read_into_loop_fail _ _ _ 0 (by decide)])
    (Or.inr ⟨MGFError.IOError, rfl⟩)

/-- C5: a zero-peak block does NOT complete a decode call at its `END IONS`
line: `handle_scan_header` returns `true` there, so the loop keeps
consuming.  On `fileMerge` (an empty block followed by a one-peak block) a
single decode call consumes the whole file and returns one merged record
carrying the second block's peak; on `fileEmptyBlock` alone the call does
yield one zero-peak record with the default description, but only by running
through to end of stream (`Done`), not by stopping at `END IONS`. -/
theorem c5_zero_peak_block_merges :
    (read_next (MGFReader.new (mkHandle fileMerge)) =
      PRes.ok ⟨⟨fileMerge, none, 48⟩, MGFParserState.Between, 0, MGFError.NoError,
          OffsetIndex.new "spectrum"⟩
        (some { description := defaultDescription, peaks := [peakOf "100 200"] })) ∧
    fileMerge.length = 48 ∧
    (read_next (MGFReader.new (mkHandle fileEmptyBlock)) =
      PRes.ok ⟨⟨fileEmptyBlock, none, 20⟩, MGFParserState.Done, 0, MGFError.NoError,
          OffsetIndex.new "spectrum"⟩
        (some { description := defaultDescription, peaks := [] })) ∧
    fileEmptyBlock.length = 20 ∧
    peakOf "100 200" = { mz := 100, intensity := 200 } := by
  refine ⟨?_, by decide, ?_, by decide, ?_⟩
  · unfold read_next read_into MGFReader.new mkHandle
    rw [read_into_loop_step2 fileMerge (fileMerge.drop 11) 0 "BEGIN IONS"
      MGFParserState.Start MGFError.NoError 0 (OffsetIndex.new "spectrum")
      new_scan.description new_scan.peaks 0 (by decide) (by decide)]
    rw [stepLine_begin_start]
    dsimp only
    rw [(by decide : (0 : Nat) + ("BEGIN IONS".length + 1) = 11)]
    rw [read_into_loop_step2 fileMerge (fileMerge.drop 20) 11 "END IONS"
      MGFParserState.ScanHeaders MGFError.NoError 0 (OffsetIndex.new "spectrum")
      new_scan.description new_scan.peaks 11 (by decide) (by decide)]
    rw [stepLine_end_sh]
    dsimp only
    rw [(by decide : (11 : Nat) + ("END IONS".length + 1) = 20)]
    rw [read_into_loop_step2 fileMerge (fileMerge.drop 31) 20 "BEGIN IONS"
      MGFParserState.Between MGFError.NoError 0 (OffsetIndex.new "spectrum")
      new_scan.description new_scan.peaks 20 (by decide) (by decide)]
    rw [stepLine_begin_between]
    dsimp only
    rw [(by decide : (20 : Nat) + ("BEGIN IONS".length + 1) = 31)]
    rw [read_into_loop_step2 fileMerge (fileMerge.drop 39) 31 "100 200"
      MGFParserState.ScanHeaders MGFError.NoError 0 (OffsetIndex.new "spectrum")
      new_scan.description new_scan.peaks 31 (by decide) (by decide)]
    rw [stepLine_peak_sh MGFError.NoError "100 200" new_scan.description
      new_scan.peaks (by decide)]
    dsimp only
    rw [(by decide : (31 : Nat) + ("100 200".length + 1) = 39)]
    rw [read_into_loop_step2 fileMerge [] 39 "END IONS"
      MGFParserState.Peaks MGFError.NoError 0 (OffsetIndex.new "spectrum")
      new_scan.description (new_scan.peaks ++ [peakOf "100 200"]) 39
      (by decide) (by decide)]
    rw [stepLine_end_pk]
    dsimp only
    rw [(by decide : (39 : Nat) + ("END IONS".length + 1) = 48)]
    rfl
  · unfold read_next read_into MGFReader.new mkHandle
    rw [read_into_loop_step2 fileEmptyBlock (fileEmptyBlock.drop 11) 0 "BEGIN IONS"
      MGFParserState.Start MGFError.NoError 0 (OffsetIndex.new "spectrum")
      new_scan.description new_scan.peaks 0 (by decide) (by decide)]
    rw [stepLine_begin_start]
    dsimp only
    rw [(by decide : (0 : Nat) + ("BEGIN IONS".length + 1) = 11)]
    rw [read_into_loop_step2 fileEmptyBlock [] 11 "END IONS"
      MGFParserState.ScanHeaders MGFError.NoError 0 (OffsetIndex.new "spectrum")
      new_scan.description new_scan.peaks 11 (by decide) (by decide)]
    rw [stepLine_end_sh]
    dsimp only
    rw [(by decide : (11 : Nat) + ("END IONS".length + 1) = 20)]
    rw [read_into_loop_eof2 fileEmptyBlock 20 (by decide) MGFParserState.Between
      0 MGFError.NoError (OffsetIndex.new "spectrum") new_scan.description
      new_scan.peaks 20]
    rfl
  · have hmz : (parseF64 "100").getD 0 = (100 : ℚ) := by
      show ((natOfDigits ['1', '0', '0'] : ℚ)) = 100
      rw [(by rfl : natOfDigits ['1', '0', '0'] = 100)]
      norm_num
    have hin : (parseF32 "200").getD 0 = (200 : ℚ) := by
      show ((natOfDigits ['2', '0', '0'] : ℚ)) = 200
      rw [(by rfl : natOfDigits ['2', '0', '0'] = 200)]
      norm_num
    have hpk : peakOf "100 200" =
        { mz := (parseF64 "100").getD 0, intensity := (parseF32 "200").getD 0 } := rfl
    rw [hpk, hmz, hin]

/-- C1 counterexample: on the two-record input `recs0` the sequentially
decoded identifiers are "A" and "B", yet querying `get_spectrum_by_id` with
either of those identifiers panics, because the index keys carry a trailing
newline; so random access by a record's decoded identifier does not
reproduce the sequential record for any record of this input. -/
theorem c1_counterexample :
    ∃ r0 r2,
      new_indexed (mkHandle (renderFile recs0)) = PRes.ok r0 () ∧
      readSeq (MGFReader.new (mkHandle (renderFile recs0))) 3 =
        PRes.ok r2 (recs0.map recSpec) ∧
      (recs0.map recSpec).map (fun s => s.description.id) = ["A", "B"] ∧
      get_spectrum_by_id r0 "A" = PRes.panicked r0 "Failed to retrieve offset" ∧
      get_spectrum_by_id r0 "B" = PRes.panicked r0 "Failed to retrieve offset" := by
  refine ⟨_, _, new_indexed_render recs0 (by decide),
    readSeq_render recs0 (by decide) (renderFile recs0) 0 (by simp)
      MGFParserState.Start (Or.inl rfl) 0 MGFError.NoError
      (OffsetIndex.new "spectrum") 3 (by decide), by decide, ?_, ?_⟩
  · show get_spectrum_by_id _ "A" = _
    unfold get_spectrum_by_id
    rw [(by decide : OffsetIndex.get ⟨"spectrum", entriesFor 0 recs0, true⟩ "A" = none)]
  · show get_spectrum_by_id _ "B" = _
    unfold get_spectrum_by_id
    rw [(by decide : OffsetIndex.get ⟨"spectrum", entriesFor 0 recs0, true⟩ "B" = none)]

/-- C2 counterexample: on the zero-peak input `fileZeroPeak` the by-id
random access restores the byte position (0) but leaves the parser in
`Done`; the next sequential read then returns the default empty record
instead of record "A", so random access does change what subsequent
sequential reads yield even though the position is unchanged. -/
theorem c2_counterexample :
    new_indexed (mkHandle fileZeroPeak) =
      PRes.ok ⟨⟨fileZeroPeak, none, 0⟩, MGFParserState.Start, 0, MGFError.NoError,
        ⟨"spectrum", [("A\n", 0)], true⟩⟩ () ∧
    read_next ⟨⟨fileZeroPeak, none, 0⟩, MGFParserState.Start, 0, MGFError.NoError,
        ⟨"spectrum", [("A\n", 0)], true⟩⟩ =
      PRes.ok ⟨⟨fileZeroPeak, none, 28⟩, MGFParserState.Done, 0, MGFError.NoError,
          ⟨"spectrum", [("A\n", 0)], true⟩⟩
        (some { description := { defaultDescription with id := "A" }, peaks := [] }) ∧
    get_spectrum_by_id ⟨⟨fileZeroPeak, none, 0⟩, MGFParserState.Start, 0, MGFError.NoError,
        ⟨"spectrum", [("A\n", 0)], true⟩⟩ "A\n" =
      PRes.ok ⟨⟨fileZeroPeak, none, 0⟩, MGFParserState.Done, 0, MGFError.NoError,
          ⟨"spectrum", [("A\n", 0)], true⟩⟩
        (some { description := { defaultDescription with id := "A" }, peaks := [] }) ∧
    read_next ⟨⟨fileZeroPeak, none, 0⟩, MGFParserState.Done, 0, MGFError.NoError,
        ⟨"spectrum", [("A\n", 0)], true⟩⟩ =
      PRes.ok ⟨⟨fileZeroPeak, none, 28⟩, MGFParserState.Done, 0, MGFError.NoError,
          ⟨"spectrum", [("A\n", 0)], true⟩⟩
        (some { description := defaultDescription, peaks := [] }) ∧
    ({ defaultDescription with id := "A" } : SpectrumDescription) ≠ defaultDescription := by
  have hread : read_next ⟨⟨fileZeroPeak, none, 0⟩, MGFParserState.Start, 0,
      MGFError.NoError, ⟨"spectrum", [("A\n", 0)], true⟩⟩ =
      PRes.ok ⟨⟨fileZeroPeak, none, 28⟩, MGFParserState.Done, 0, MGFError.NoError,
          ⟨"spectrum", [("A\n", 0)], true⟩⟩
        (some { description := { defaultDescription with id := "A" }, peaks := [] }) := by
    unfold read_next read_into
    rw [read_into_loop_step2 fileZeroPeak (fileZeroPeak.drop 11) 0 "BEGIN IONS"
      MGFParserState.Start MGFError.NoError 0 ⟨"spectrum", [("A\n", 0)], true⟩
      new_scan.description new_scan.peaks 0 (by decide) (by decide)]
    rw [stepLine_begin_start]
    dsimp only
    rw [(by decide : (0 : Nat) + ("BEGIN IONS".length + 1) = 11)]
    rw [read_into_loop_step2 fileZeroPeak (fileZeroPeak.drop 19) 11 ("TITLE=" ++ "A")
      MGFParserState.ScanHeaders MGFError.NoError 0 ⟨"spectrum", [("A\n", 0)], true⟩
      new_scan.description new_scan.peaks 11 (by decide) (by decide)]
    rw [stepLine_title]
    dsimp only
    rw [(by decide : (11 : Nat) + (("TITLE=" ++ "A").length + 1) = 19)]
    rw [read_into_loop_step2 fileZeroPeak [] 19 "END IONS"
      MGFParserState.ScanHeaders MGFError.NoError 0 ⟨"spectrum", [("A\n", 0)], true⟩
      { new_scan.description with id := "A" } new_scan.peaks 19 (by decide) (by decide)]
    rw [stepLine_end_sh]
    dsimp only
    rw [(by decide : (19 : Nat) + ("END IONS".length + 1) = 28)]
    rw [read_into_loop_eof2 fileZeroPeak 28 (by decide) MGFParserState.Between
      0 MGFError.NoError ⟨"spectrum", [("A\n", 0)], true⟩
      { new_scan.description with id := "A" } new_scan.peaks 28]
    rfl
  have hreadDone : read_next ⟨⟨fileZeroPeak, none, 0⟩, MGFParserState.Done, 0,
      MGFError.NoError, ⟨"spectrum", [("A\n", 0)], true⟩⟩ =
      PRes.ok ⟨⟨fileZeroPeak, none, 28⟩, MGFParserState.Done, 0, MGFError.NoError,
          ⟨"spectrum", [("A\n", 0)], true⟩⟩
        (some { description := defaultDescription, peaks := [] }) := by
    unfold read_next read_into
    rw [read_into_loop_step2 fileZeroPeak (fileZeroPeak.drop 11) 0 "BEGIN IONS"
      MGFParserState.Done MGFError.NoError 0 ⟨"spectrum", [("A\n", 0)], true⟩
      new_scan.description new_scan.peaks 0 (by decide) (by decide)]
    rw [stepLine_eq_done]
    dsimp only
    rw [(by decide : (0 : Nat) + ("BEGIN IONS".length + 1) = 11)]
    rw [read_into_loop_step2 fileZeroPeak (fileZeroPeak.drop 19) 11 "TITLE=A"
      MGFParserState.Done MGFError.NoError 0 ⟨"spectrum", [("A\n", 0)], true⟩
      new_scan.description new_scan.peaks 11 (by decide) (by decide)]
    rw [stepLine_eq_done]
    dsimp only
    rw [(by decide : (11 : Nat) + ("TITLE=A".length + 1) = 19)]
    rw [read_into_loop_step2 fileZeroPeak [] 19 "END IONS"
      MGFParserState.Done MGFError.NoError 0 ⟨"spectrum", [("A\n", 0)], true⟩
      new_scan.description new_scan.peaks 19 (by decide) (by decide)]
    rw [stepLine_eq_done]
    dsimp only
    rw [(by decide : (19 : Nat) + ("END IONS".length + 1) = 28)]
    rw [read_into_loop_eof2 fileZeroPeak 28 (by decide) MGFParserState.Done
      0 MGFError.NoError ⟨"spectrum", [("A\n", 0)], true⟩
      new_scan.description new_scan.peaks 28]
    rfl
  refine ⟨?_, hread, ?_, hreadDone, by decide⟩
  · unfold new_indexed build_index MGFReader.new mkHandle hseek
    dsimp only
    rw [build_index_loop_step2 fileZeroPeak (fileZeroPeak.drop 11) 0 "BEGIN IONS"
      (by decide) (by decide) MGFParserState.Start 0 MGFError.NoError
      (OffsetIndex.new "spectrum") 0 0 false]
    rw [if_pos (by decide :
      strStartsWith (String.mk ("BEGIN IONS".data ++ ['\n'])) "BEGIN IONS" = true)]
    rw [(by decide : (0 : Nat) + ("BEGIN IONS".length + 1) = 11)]
    rw [build_index_loop_step2 fileZeroPeak (fileZeroPeak.drop 19) 11 "TITLE=A"
      (by decide) (by decide) MGFParserState.Start 0 MGFError.NoError
      (OffsetIndex.new "spectrum") 11 0 true]
    rw [if_neg (by decide :
      ¬ strStartsWith (String.mk ("TITLE=A".data ++ ['\n'])) "BEGIN IONS" = true)]
    rw [if_pos (by decide :
      (true && strStartsWith (String.mk ("TITLE=A".data ++ ['\n'])) "TITLE=") = true)]
    rw [(by decide : (11 : Nat) + ("TITLE=A".length + 1) = 19)]
    rw [build_index_loop_step2 fileZeroPeak [] 19 "END IONS"
      (by decide) (by decide) MGFParserState.Start 0 MGFError.NoError
      ((OffsetIndex.new "spectrum").insert
        (strDrop (String.mk ("TITLE=A".data ++ ['\n'])) 6) 0) 19 0 false]
    rw [if_neg (by decide :
      ¬ strStartsWith (String.mk ("END IONS".data ++ ['\n'])) "BEGIN IONS" = true)]
    rw [if_neg (by decide :
      ¬ (false && strStartsWith (String.mk ("END IONS".data ++ ['\n'])) "TITLE=") = true)]
    rw [(by decide : (19 : Nat) + ("END IONS".length + 1) = 28)]
    rw [build_index_loop_eof2 fileZeroPeak 28 (by decide) MGFParserState.Start
      0 MGFError.NoError ((OffsetIndex.new "spectrum").insert
        (strDrop (String.mk ("TITLE=A".data ++ ['\n'])) 6) 0) 28 0 false]
    rfl
  · unfold get_spectrum_by_id
    rw [(by decide :
      OffsetIndex.get ⟨"spectrum", [("A\n", 0)], true⟩ ("A\n") = some 0)]
    dsimp only
    simp only [hseek]
    rw [hread]
